import Mathlib

/-!
Verification of the csv-chef recipe execution engine (Go sources under src/).
The Go code is shallowly embedded: Go maps become association lists, Go
slices become lists, fallible code and run-time panics (nil dereferences,
failed type assertions, out-of-range indexing) become `Except`/`Option`
failures, and the machine numeric types become `Int`/`Rat`.
Library functions from the Go standard library that the sources call
(`strings.TrimSpace`, `strconv.Atoi`, `strconv.ParseFloat`, `strconv.Itoa`,
`encoding/hex`, `path/filepath.Ext`) are modelled by small executable Lean
functions over the domain the engine uses; restrictions are noted at each
definition.
-/

namespace CsvChef

/-- Column type tags, from the constants TypStr/TypInt/TypFloat/TypBool in
the Go source. -/
def TypStr : String := "string"

def TypInt : String := "int"

def TypFloat : String := "float"

def TypBool : String := "bool"

/-- Model of Go `strings.TrimSpace` on the character list of a string:
drop whitespace from both ends.  (Go trims Unicode white space; Lean's
`Char.isWhitespace` covers the ASCII cases the engine meets.) -/
def trimSpaceList (cs : List Char) : List Char :=
  ((cs.dropWhile Char.isWhitespace).reverse.dropWhile Char.isWhitespace).reverse

/-- `strings.TrimSpace` for `String`. -/
def trimSpace (s : String) : String :=
  String.mk (trimSpaceList s.data)

/-- Model of Go `strings.ToLower` (ASCII case folding, which is all the
engine's token set needs). -/
def toLowerStr (s : String) : String :=
  String.mk (s.data.map Char.toLower)

/-- The `strBool` map of the source: the token set recognised by `bool`
columns and by `argBool`.  Returns `none` for a token outside the map,
mirroring the `ok` flag of the Go map lookup. -/
def strBool (s : String) : Option Bool :=
  if s = "no" then some false
  else if s = "yes" then some true
  else if s = "n/a" then some false
  else if s = "false" then some false
  else if s = "true" then some true
  else if s = "0" then some false
  else if s = "1" then some true
  else if s = "" then some false
  else none

/-- Decimal digit value of a character, `none` if it is not `0`..`9`. -/
def digitVal (c : Char) : Option Nat :=
  if c.isDigit then some (c.toNat - 48) else none

/-- Fold a list of decimal digit characters into a natural number;
fails when a character is not a digit. -/
def digitsFold (cs : List Char) : Option Nat :=
  cs.foldlM (fun a c => (digitVal c).map (fun d => a * 10 + d)) 0

/-- Model of Go `strconv.Atoi`: optional sign followed by one or more
decimal digits.  (The int64 range check of the real function is not
modelled; the engine only parses small counts and thresholds.) -/
def goAtoi (s : String) : Option Int :=
  match s.data with
  | [] => none
  | c :: rest =>
      if c = '+' then (if rest = [] then none else (digitsFold rest).map Int.ofNat)
      else if c = '-' then
        (if rest = [] then none else (digitsFold rest).map (fun n => -(Int.ofNat n)))
      else (digitsFold (c :: rest)).map Int.ofNat

/-- Split a character list at the first dot, for the decimal-fraction
syntax accepted by `goParseFloat`. -/
def splitAtDot (cs : List Char) : List Char × Option (List Char) :=
  match cs with
  | [] => ([], none)
  | '.' :: rest => ([], some rest)
  | c :: rest =>
      let (intPart, fracPart) := splitAtDot rest
      (c :: intPart, fracPart)

/-- Model of Go `strconv.ParseFloat` on the plain decimal syntax
`[+-]digits[.digits]` (with at least one digit), returning the exactly
represented rational.  Exponent, hex, Inf/NaN forms and IEEE rounding are
outside the engine's modelled domain. -/
def goParseFloat (s : String) : Option Rat :=
  let signed : Bool × List Char :=
    match s.data with
    | '+' :: rest => (false, rest)
    | '-' :: rest => (true, rest)
    | cs => (false, cs)
  let (neg, body) := signed
  let (intCs, fracCs) := splitAtDot body
  match fracCs with
  | none =>
      match digitsFold intCs with
      | none => none
      | some n => if intCs = [] then none else some (if neg then -(n : Rat) else (n : Rat))
  | some fs =>
      if intCs = [] ∧ fs = [] then none
      else
        match digitsFold intCs, digitsFold fs with
        | some i, some f =>
            let q : Rat := (i : Rat) + (f : Rat) / ((10 : Rat) ^ fs.length)
            some (if neg then -q else q)
        | _, _ => none

/-- Go's float-to-int conversion `int(f)`: truncation toward zero. -/
def goTrunc (q : Rat) : Int :=
  Int.tdiv q.num (Int.ofNat q.den)

/-- The decimal digit characters. -/
def digitChars : List Char :=
  "0123456789".data

/-- Model of Go `strconv.Itoa` for the natural counts produced by the
grouping operations: the usual base-10 representation. -/
def itoa (n : Nat) : String :=
  if n = 0 then "0"
  else String.mk ((Nat.digits 10 n).reverse.map (fun d => digitChars.getD d '0'))

/-- ColDef, the configuration data of a column (src: `type ColDef struct`).
The runtime-only `index` field and the `Parsers` chain are not part of the
value model and are omitted here; the parser chain is modelled separately
where validation needs it. -/
structure ColDef where
  name : String
  typ : String
  dflt : String
  notEmpty : Bool
  dynamic : Bool
deriving DecidableEq, Repr

/-- Value, the typed cell value (src: `type Value struct`).  `valFloat`
is held as an exact rational (see `goParseFloat`). -/
structure Value where
  valInt : Option Int
  valFloat : Option Rat
  valBool : Option Bool
  def_ : ColDef
  valStr : String
deriving DecidableEq, Repr

/-- `(*Value).ValStr` — the string representation, total. -/
def Value.ValStr (v : Value) : String := v.valStr

/-- `(*ColDef).parseValStr`: trim, then apply the default / the `"0"`
substitution for numeric types / the required-value check. -/
def ColDef.parseValStr (cd : ColDef) (val : String) : Except String String :=
  let val := trimSpace val
  if val = "" then
    if cd.dflt ≠ "" then .ok cd.dflt
    else if cd.typ ≠ TypStr then .ok "0"
    else if cd.notEmpty then .error "required value is empty and no default configured"
    else .ok ""
  else .ok val

/-- `NewValue`: construct a typed Value from a column definition and a raw
string, per the switch on the declared type in the source. -/
def NewValue (def_ : ColDef) (vStr : String) : Except String Value :=
  match def_.parseValStr vStr with
  | .error e => .error e
  | .ok vStr =>
    if def_.typ = TypStr then
      .ok { valInt := none, valFloat := none, valBool := none, def_ := def_, valStr := vStr }
    else if def_.typ = TypInt then
      match goAtoi vStr with
      | none => .error "not a number"
      | some vInt =>
          .ok { valInt := some vInt, valFloat := some (vInt : Rat),
                valBool := some (decide (vInt ≤ 0)), def_ := def_, valStr := vStr }
    else if def_.typ = TypBool then
      let bStr := trimSpace (toLowerStr vStr)
      let vBool := (strBool bStr).getD true
      .ok { valInt := none, valFloat := none, valBool := some vBool, def_ := def_, valStr := vStr }
    else if def_.typ = TypFloat then
      match goParseFloat vStr with
      | none => .error "not a float"
      | some vFloat =>
          let vInt := goTrunc vFloat
          .ok { valInt := some vInt, valFloat := some vFloat,
                valBool := some (decide (vInt ≤ 0)), def_ := def_, valStr := vStr }
    else
      .error "unsupported type"

/-- Row, a Go map from column name to Value, modelled as an association
list with map update/lookup semantics. -/
def Row : Type := List (String × Value)

instance : DecidableEq Row := by
  unfold Row; infer_instance

instance : Repr Row := by
  unfold Row; infer_instance

/-- Map lookup `row[name]` with its `ok` flag as an `Option`. -/
def Row.lookup (r : Row) (name : String) : Option Value :=
  match r with
  | [] => none
  | (k, v) :: rest => if k = name then some v else Row.lookup rest name

/-- Map update `row[name] = v`: replace the existing binding or append. -/
def Row.set (r : Row) (name : String) (v : Value) : Row :=
  match r with
  | [] => [(name, v)]
  | (k, w) :: rest => if k = name then (k, v) :: rest else (k, w) :: Row.set rest name v

/-- ValueDefs, the Go map from column name to its definition, as an
association list. -/
def ValueDefs : Type := List (String × ColDef)

instance : DecidableEq ValueDefs := by
  unfold ValueDefs; infer_instance

instance : Repr ValueDefs := by
  unfold ValueDefs; infer_instance

/-- Lookup in a ValueDefs map. -/
def ValueDefs.find (defs : ValueDefs) (name : String) : Option ColDef :=
  match defs with
  | [] => none
  | (k, d) :: rest => if k = name then some d else ValueDefs.find rest name

/-- Map update in a ValueDefs map. -/
def ValueDefs.set (defs : ValueDefs) (name : String) (d : ColDef) : ValueDefs :=
  match defs with
  | [] => [(name, d)]
  | (k, w) :: rest => if k = name then (k, d) :: rest else (k, w) :: ValueDefs.set rest name d

/-- Header, the Go map from input-record position to column definition,
as an association list over positions. -/
def Header : Type := List (Nat × ColDef)

/-- Lookup in a Header map. -/
def Header.find (h : Header) (i : Nat) : Option ColDef :=
  match h with
  | [] => none
  | (k, d) :: rest => if k = i then some d else Header.find rest i

/-- The entries of a header holding the given definitions at positions
`n, n+1, ...`. -/
def mkHeaderFrom (n : Nat) : List ColDef → Header
  | [] => []
  | d :: rest => (n, d) :: mkHeaderFrom (n + 1) rest

/-- The header built by the operations: the given definitions at
positions `0, 1, ...` (src: `header[i] = defs[col]` loops). -/
def mkHeader (ds : List ColDef) : Header :=
  mkHeaderFrom 0 ds

/-- Loop body of `NewRow`: walk the record cells with their position,
skip positions absent from the header, construct each value with
`NewValue` and bind it to the column name. -/
def NewRowGo (header : Header) : Nat → List String → Row → Except String Row
  | _, [], row => .ok row
  | i, cell :: rest, row =>
      match header.find i with
      | none => NewRowGo header (i + 1) rest row
      | some h => do
          let v ← NewValue h cell
          NewRowGo header (i + 1) rest (row.set h.name v)

/-- `NewRow`: create the row values for all defined header positions. -/
def NewRow (header : Header) (rowStr : List String) : Except String Row :=
  NewRowGo header 0 rowStr []

/-- ParserArg, the recursive argument configuration of a parser
invocation (src/csv/args.go). -/
inductive ParserArg where
  | mk (value : String) (values : List ParserArg) (col : String) (cols : List String)

def ParserArg.value : ParserArg → String
  | .mk v _ _ _ => v

def ParserArg.values : ParserArg → List ParserArg
  | .mk _ vs _ _ => vs

def ParserArg.col : ParserArg → String
  | .mk _ _ c _ => c

def ParserArg.cols : ParserArg → List String
  | .mk _ _ _ cs => cs

/-- A resolved parser argument: Go `interface{}` holding either a string
or a list of resolved arguments. -/
inductive ArgV where
  | s (str : String)
  | lst (items : List ArgV)

mutual

/-- `parseArgs`: resolve one ParserArg against the in-focus cell and the
row (src/unnamed/part_000).  Order of the checks matches the source:
literal value, nested list, single column, first of `cols`, then the
self/tilde default. -/
def parseArgs (cell : Value) (row : Row) (arg : ParserArg) : Except String ArgV :=
  match arg with
  | .mk value values col cols =>
    if value ≠ "" then .ok (.s value)
    else if values.length > 0 then
      match parseArgsList cell row values with
      | .error e => .error e
      | .ok vals => .ok (.lst vals)
    else if col ≠ "" then
      match row.lookup col with
      | none => .error "column not found"
      | some v => .ok (.s v.ValStr)
    else if cols.length > 0 then
      -- the source loops over cols but returns inside the first iteration
      match cols with
      | [] => .ok (.s cell.ValStr)
      | c :: _ =>
          match row.lookup c with
          | none => .error "column not found"
          | some v => .ok (.s v.ValStr)
    else
      .ok (.s cell.ValStr)

/-- Resolve a list of ParserArgs left to right, failing on the first
failure. -/
def parseArgsList (cell : Value) (row : Row) : List ParserArg → Except String (List ArgV)
  | [] => .ok []
  | a :: rest =>
      match parseArgs cell row a with
      | .error e => .error e
      | .ok v =>
          match parseArgsList cell row rest with
          | .error e => .error e
          | .ok vs => .ok (v :: vs)

end

/-- Shape tag of a declared parser/operation argument: Go distinguishes
only `reflect.Slice` kinds from the rest (src `validateParserArgType`,
`parseOpArgs`). -/
inductive ArgKind where
  | scalar
  | slice
deriving DecidableEq, Repr

/-- ArgDef, the map from argument name to its expected shape. -/
def ArgDefM : Type := List (String × ArgKind)

/-- Lookup in an ArgDef map. -/
def ArgDefM.find (d : ArgDefM) (name : String) : Option ArgKind :=
  match d with
  | [] => none
  | (k, t) :: rest => if k = name then some t else ArgDefM.find rest name

/-- ColParser, a parser invocation configured on a column. -/
structure ColParser where
  name : String
  args : List (String × ParserArg)

/-- The declared argument shapes of the built-in parsers, from the
`Parser` literals in the source (`args: ArgDef{...}` fields). -/
def parserArgDefs (name : String) : Option ArgDefM :=
  if name = "lowercase" then some [("value", .scalar)]
  else if name = "uppercase" then some [("value", .scalar)]
  else if name = "concat" then some [("values", .slice)]
  else if name = "ext" then some [("value", .scalar)]
  else if name = "fileExists" then some [("value", .scalar)]
  else if name = "fileMd5" then some [("filename", .scalar)]
  else if name = "contains" then
    some [("value", .scalar), ("term", .scalar), ("trueValue", .scalar), ("falseValue", .scalar)]
  else none

/-- `validateParserArgType`: a supplied list argument needs a slice-shaped
declaration and vice versa. -/
def validateParserArgType (defType : ArgKind) (arg : ParserArg) : Except String Unit :=
  if arg.values.length > 0 ∧ defType ≠ .slice then
    .error "type must either be self, col, or val, not array"
  else if arg.values.length = 0 ∧ defType = .slice then
    .error "type must be array"
  else .ok ()

/-- `validateParser`: the parser must exist and every supplied argument
must be declared with a matching shape. -/
def validateParser (colParser : ColParser) : Except String Unit :=
  match parserArgDefs colParser.name with
  | none => .error "parser does not exist"
  | some argDef =>
      colParser.args.foldlM
        (fun _ (p : String × ParserArg) =>
          match argDef.find p.1 with
          | none => .error ("parser does not take argument " ++ p.1)
          | some t => validateParserArgType t p.2)
        ()

/-- FuncArgs for a parser call: map from argument name to resolved value. -/
def PFuncArgs : Type := List (String × ArgV)

/-- Lookup in parser FuncArgs. -/
def PFuncArgs.find (a : PFuncArgs) (name : String) : Option ArgV :=
  match a with
  | [] => none
  | (k, v) :: rest => if k = name then some v else PFuncArgs.find rest name

/-- Walk the reversed path characters; `acc` holds the characters already
passed, in original order.  Stops at a path separator; on the first dot
met (the final dot of the path) returns the suffix from that dot. -/
def filepathExtAux : List Char → List Char → String
  | _, [] => ""
  | acc, c :: rest =>
      if c = '/' then ""
      else if c = '.' then String.mk (c :: acc)
      else filepathExtAux (c :: acc) rest

/-- Model of Go `path/filepath.Ext`: the suffix beginning at the final
dot in the final path element, or the empty string. -/
def filepathExt (s : String) : String :=
  filepathExtAux [] s.data.reverse

/-- `extParser`, the function behind the built-in `ext` parser: it reads
the `filename` argument (although the parser declares `value`), requires
it to be a string, and strips the leading dot from `filepath.Ext`. -/
def extParser (args : PFuncArgs) : Except String String :=
  match args.find "filename" with
  | none => .error "filename argument not provided"
  | some (.lst _) => .error "interface conversion: not a string"
  | some (.s fileName) =>
      let ext := filepathExt fileName
      if ext ≠ "" ∧ ext.data.head? = some '.' then .ok (String.mk ext.data.tail)
      else .ok ext

/-! ## Operation layer (src/csv/ops_builtin.go, src part_002 operations file) -/

/-- OpArg, the configured argument of an operation invocation. -/
structure OpArg where
  value : String
  values : List String
deriving DecidableEq, Repr

/-- OperationConf, one configured operation invocation. -/
structure OperationConf where
  name : String
  operation : String
  newState : Bool
  keepState : Bool
  fromState : String
  args : List (String × OpArg)
deriving DecidableEq, Repr

/-- A resolved operation argument: `parseOpArgs` produces either the
plain string `arg.Value` or the string slice `arg.Values`. -/
inductive OpArgVal where
  | str (s : String)
  | strList (l : List String)
deriving DecidableEq, Repr

/-- FuncArgs for an operation call. -/
def OFuncArgs : Type := List (String × OpArgVal)

/-- Lookup in operation FuncArgs. -/
def OFuncArgs.find (a : OFuncArgs) (name : String) : Option OpArgVal :=
  match a with
  | [] => none
  | (k, v) :: rest => if k = name then some v else OFuncArgs.find rest name

/-- Map update in operation FuncArgs. -/
def OFuncArgs.set (a : OFuncArgs) (name : String) (v : OpArgVal) : OFuncArgs :=
  match a with
  | [] => [(name, v)]
  | (k, w) :: rest => if k = name then (k, v) :: rest else (k, w) :: OFuncArgs.set rest name v

/-- `parseOpArgs`: a slice-kinded declared argument takes `arg.Values`,
anything else takes `arg.Value`. -/
def parseOpArgs (opArgDef : ArgKind) (arg : OpArg) : OpArgVal :=
  match opArgDef with
  | .slice => .strList arg.values
  | .scalar => .str arg.value

/-- `argString`: the argument must be present and hold a string. -/
def argString (args : OFuncArgs) (argName : String) : Except String String :=
  match args.find argName with
  | none => .error "argument not provided"
  | some (.strList _) => .error "must be a string"
  | some (.str s) => .ok s

/-- `argInt`: present, and a string parsed by Atoi (the int case of the
source never arises through `parseOpArgs`). -/
def argInt (args : OFuncArgs) (argName : String) : Except String Int :=
  match args.find argName with
  | none => .error "argument not provided"
  | some (.strList _) => .error "must be an integer"
  | some (.str s) =>
      match goAtoi s with
      | none => .error "must be an integer"
      | some n => .ok n

/-- `argBool`: present, and a string looked up in `strBool`; an
unrecognised token silently becomes `false` (the map zero value). -/
def argBool (args : OFuncArgs) (argName : String) : Except String Bool :=
  match args.find argName with
  | none => .error "argument not provided"
  | some (.strList _) => .error "must be a boolean"
  | some (.str s) => .ok ((strBool s).getD false)

/-- `argSliceString`: present, and a string slice. -/
def argSliceString (args : OFuncArgs) (argName : String) : Except String (List String) :=
  match args.find argName with
  | none => .error "argument not provided"
  | some (.str _) => .error "must be a slice of strings"
  | some (.strList l) => .ok l

/-- Character order by code point. -/
def charLtB (a b : Char) : Bool :=
  Nat.blt a.toNat b.toNat

/-- Go `<` on strings: byte-wise lexicographic comparison (UTF-8 byte
order coincides with code-point order). -/
def strLtB : List Char → List Char → Bool
  | [], bs => !bs.isEmpty
  | _ :: _, [] => false
  | a :: as, b :: bs =>
      if charLtB a b then true
      else if charLtB b a then false
      else strLtB as bs

/-- Go `<` on strings, on `String`. -/
def strLt (a b : String) : Bool :=
  strLtB a.data b.data

/-- The string value of `rows[idx][col]`, `none` on the nil dereference
of a missing row or column. -/
def rowValStrAt (rows : List Row) (idx : Nat) (col : String) : Option String :=
  (rows.get? idx).bind (fun r => (r.lookup col).map Value.valStr)

/-- The float value `*rows[idx][col].ValFloat()`, `none` on a nil
dereference. -/
def rowValFloatAt (rows : List Row) (idx : Nat) (col : String) : Option Rat :=
  (rows.get? idx).bind (fun r => (r.lookup col).bind Value.valFloat)

/-- The in-place normalisation of `order[colI]` at the top of the
comparison loop: an entry that is neither `desc` nor `asc` is rewritten
to `asc`. -/
def normAt (order : List String) (colI : Nat) (d0 : String) : List String :=
  if d0 ≠ "desc" ∧ d0 ≠ "asc" then order.set colI "asc" else order

/-- One iteration step plus the rest of the comparison loop of the
`sort.Slice` less function in `opSort`, with the mutable `order` slice
threaded through (the source normalises `order[colI]` in place).  The
source reads the direction at the ROW index `i` (`order[i]`), not at the
column index; that read, and every nil dereference, is a `none`. -/
def sortLessAux (rows : List Row) (defs : ValueDefs) (i j : Nat) :
    List String → Nat → List String → Option (Bool × List String)
  | [], _, order => some (false, order)
  | col :: restCols, colI, order =>
      match defs.find col with
      | none => none
      | some colDef =>
        match order.get? colI with
        | none => none
        | some d0 =>
          let order := normAt order colI d0
          if colDef.typ = TypStr then
            match order.get? i with
            | none => none
            | some di =>
              if di = "asc" then
                match rowValStrAt rows i col, rowValStrAt rows j col with
                | some si, some sj =>
                    if strLt si sj then some (true, order)
                    else if strLt sj si then some (false, order)
                    else sortLessAux rows defs i j restCols (colI + 1) order
                | _, _ => none
              else if di = "desc" then
                match rowValStrAt rows i col, rowValStrAt rows j col with
                | some si, some sj =>
                    if strLt sj si then some (true, order)
                    else if strLt si sj then some (false, order)
                    else sortLessAux rows defs i j restCols (colI + 1) order
                | _, _ => none
              else sortLessAux rows defs i j restCols (colI + 1) order
          else if colDef.typ = TypFloat ∨ colDef.typ = TypInt then
            match order.get? i with
            | none => none
            | some di =>
              if di = "asc" then
                match rowValFloatAt rows i col, rowValFloatAt rows j col with
                | some qi, some qj =>
                    if qi < qj then some (true, order)
                    else if qj < qi then some (false, order)
                    else sortLessAux rows defs i j restCols (colI + 1) order
                | _, _ => none
              else if di = "desc" then
                match rowValFloatAt rows i col, rowValFloatAt rows j col with
                | some qi, some qj =>
                    if qj < qi then some (true, order)
                    else if qi < qj then some (false, order)
                    else sortLessAux rows defs i j restCols (colI + 1) order
                | _, _ => none
              else sortLessAux rows defs i j restCols (colI + 1) order
          else sortLessAux rows defs i j restCols (colI + 1) order

/-- The full less function of `opSort` comparing row indices `i` and `j`,
returning the result together with the final contents of the `order`
slice. -/
def sortLessGo (rows : List Row) (defs : ValueDefs) (cols order : List String) (i j : Nat) :
    Option (Bool × List String) :=
  sortLessAux rows defs i j cols 0 order

/-- Just the boolean verdict of the `opSort` less function. -/
def sortLessB (rows : List Row) (defs : ValueDefs) (cols order : List String) (i j : Nat) :
    Option Bool :=
  (sortLessGo rows defs cols order i j).map Prod.fst

/-- Modelled from the spec: the per-column comparison the spec describes
for `sort` — each column ordered by ITS OWN direction entry (`desc`
descending, anything else ascending), string columns lexicographic on the
string form, int/float columns on the float projection. -/
def sortLessSpecAux (rows : List Row) (defs : ValueDefs) (i j : Nat) :
    List (String × String) → Option Bool
  | [] => some false
  | (col, dir) :: rest =>
      match defs.find col with
      | none => none
      | some colDef =>
        if colDef.typ = TypStr then
          match rowValStrAt rows i col, rowValStrAt rows j col with
          | some si, some sj =>
              if dir = "desc" then
                if strLt sj si then some true
                else if strLt si sj then some false
                else sortLessSpecAux rows defs i j rest
              else
                if strLt si sj then some true
                else if strLt sj si then some false
                else sortLessSpecAux rows defs i j rest
          | _, _ => none
        else if colDef.typ = TypFloat ∨ colDef.typ = TypInt then
          match rowValFloatAt rows i col, rowValFloatAt rows j col with
          | some qi, some qj =>
              if dir = "desc" then
                if qj < qi then some true
                else if qi < qj then some false
                else sortLessSpecAux rows defs i j rest
              else
                if qi < qj then some true
                else if qj < qi then some false
                else sortLessSpecAux rows defs i j rest
          | _, _ => none
        else sortLessSpecAux rows defs i j rest

/-- Modelled from the spec: the full spec-side multi-column comparator. -/
def sortLessSpec (rows : List Row) (defs : ValueDefs) (cols order : List String) (i j : Nat) :
    Option Bool :=
  sortLessSpecAux rows defs i j (cols.zip order)

/-- The documented contract of Go `sort.Slice` applied in `opSort`: the
final slice is some permutation of the input in which no later element is
less than an earlier one under the code's comparator.  `sort.Slice` does
NOT guarantee stability, so every output satisfying this relation is an
allowed execution. -/
def sortSliceAllowed (defs : ValueDefs) (cols order : List String)
    (input output : List Row) : Prop :=
  output.Perm input ∧
    ∀ i j, i < j → j < output.length → sortLessB output defs cols order j i ≠ some true

/-- Two rows agree (as Values) on every column of `cols`. -/
def rowsEqualOnCols (cols : List String) (r s : Row) : Prop :=
  ∀ c ∈ cols, r.lookup c = s.lookup c

instance (cols : List String) (r s : Row) : Decidable (rowsEqualOnCols cols r s) := by
  unfold rowsEqualOnCols; infer_instance

/-! ### Grouping operations -/

/-- The grouping key of a row: the concatenation of the string forms of
the index columns; `none` on the nil dereference of a missing column. -/
def rowKeyM (cols : List String) (r : Row) : Option String :=
  cols.foldlM (fun acc c => (r.lookup c).map (fun v => acc ++ v.valStr)) ""

/-- Append a row to its key group (groups kept in first-seen key order;
the Go map iterates groups in unspecified order, the model fixes the
first-seen order as canonical). -/
def groupAdd (m : List (String × List Row)) (k : String) (r : Row) :
    List (String × List Row) :=
  match m with
  | [] => [(k, [r])]
  | (k0, g) :: rest => if k0 = k then (k0, g ++ [r]) :: rest else (k0, g) :: groupAdd rest k r

/-- Build the `m := map[string][]Row` of the grouping operations. -/
def buildGroups (cols : List String) (rows : List Row) :
    Option (List (String × List Row)) :=
  rows.foldlM (fun m r => (rowKeyM cols r).map (fun k => groupAdd m k r)) []

/-- `outDefs` construction shared by the grouping operations:
`outDefs[h.Name] = h` over the header. -/
def headerToDefs (header : Header) : ValueDefs :=
  header.foldl (fun ds p => ds.set p.2.name p.2) []

/-- Look up the definitions of the output columns; the source stores a
nil map entry for a missing definition and panics on its first use, which
the model reports as an immediate failure. -/
def findOutDefs (defs : ValueDefs) (outCols : List String) : Except String (List ColDef) :=
  outCols.mapM (fun c =>
    match defs.find c with
    | none => Except.error ("column definition not found: " ++ c)
    | some d => Except.ok d)

/-- What an operation run does to the dataset it was handed: the rows the
source slice holds afterwards (in-place mutation made explicit), and the
returned output (a fresh row set, or an alias of the mutated source as
`opMd5File` returns its input slice). -/
inductive OpOut where
  | fresh (rows : List Row) (defs : ValueDefs)
  | aliased (defs : ValueDefs)
deriving Repr

structure OpResult where
  newSource : List Row
  out : OpOut
deriving Repr

/-- `opPrint`: consumes the rows (stdout is external); reading a missing
column is a nil dereference. -/
def opPrint (rows : List Row) (_defs : ValueDefs) (args : OFuncArgs) :
    Except String OpResult :=
  match args.find "cols" with
  | none => .error "cols argument not provided"
  | some (.str _) => .error "interface conversion: not a slice of strings"
  | some (.strList cols) =>
      match rows.mapM (fun r => cols.mapM (fun c =>
          match r.lookup c with
          | none => Except.error "column not found in row"
          | some v => Except.ok v.valStr)) with
      | .error e => .error e
      | .ok _ => .ok { newSource := rows, out := .fresh [] [] }

/-- `opToFile`: like `opPrint` with a filename argument; the file write
itself is external and modelled as always succeeding. -/
def opToFile (rows : List Row) (_defs : ValueDefs) (args : OFuncArgs) :
    Except String OpResult :=
  match args.find "cols" with
  | none => .error "cols argument not provided"
  | some (.str _) => .error "interface conversion: not a slice of strings"
  | some (.strList cols) =>
      match args.find "filename" with
      | none => .error "filename argument not provided"
      | some (.strList _) => .error "interface conversion: not a string"
      | some (.str _) =>
          match rows.mapM (fun r => cols.mapM (fun c =>
              match r.lookup c with
              | none => Except.error "column not found in row"
              | some v => Except.ok v.valStr)) with
          | .error e => .error e
          | .ok _ => .ok { newSource := rows, out := .fresh [] [] }

/-- Build one output row of `opDupesCount` from a group. -/
def dupesCountRow (header : Header) (outCols : List String) (g : List Row) :
    Except String Row :=
  match g with
  | [] => .error "empty group"
  | r0 :: _ =>
      match outCols.mapM (fun c =>
          match r0.lookup c with
          | none => Except.error "column not found in row"
          | some v => Except.ok v.valStr) with
      | .error e => .error e
      | .ok rec_ => NewRow header (rec_ ++ [itoa g.length])

/-- `opDupesCount`: group by the index columns, and for each group whose
size strictly exceeds `gt` emit one row of the first member's output
columns plus an int count column. -/
def opDupesCount (rows : List Row) (defs : ValueDefs) (args : OFuncArgs) :
    Except String OpResult :=
  match args.find "indexCols" with
  | none => .error "indexCols argument not provided"
  | some (.str _) => .error "interface conversion: not a slice of strings"
  | some (.strList cols) =>
    match args.find "outCols" with
    | none => .error "outCols argument not provided"
    | some (.str _) => .error "interface conversion: not a slice of strings"
    | some (.strList outCols) =>
      match args.find "countCol" with
      | none => .error "countCol argument not provided"
      | some (.strList _) => .error "interface conversion: not a string"
      | some (.str countColName) =>
        match args.find "gt" with
        | none => .error "gt argument not provided"
        | some (.strList _) => .error "interface conversion: not a string"
        | some (.str gtS) =>
          match goAtoi gtS with
          | none => .error "invalid syntax"
          | some gt =>
            match buildGroups cols rows with
            | none => .error "column not found in row"
            | some m =>
              match findOutDefs defs outCols with
              | .error e => .error e
              | .ok hdrDefs =>
                let header := mkHeader (hdrDefs ++ [⟨countColName, TypInt, "", false, true⟩])
                match (m.filter (fun g => gt < (g.2.length : Int))).mapM
                    (fun g => dupesCountRow header outCols g.2) with
                | .error e => .error e
                | .ok outRows =>
                    .ok { newSource := rows, out := .fresh outRows (headerToDefs header) }

/-- Build one output row of `opFindDuplicates` from a group. -/
def findDupesRow (header : Header) (outCols : List String) (idCol sep : String)
    (g : List Row) : Except String Row :=
  match g with
  | [] => .error "empty group"
  | r0 :: rest =>
      match outCols.mapM (fun c =>
          match r0.lookup c with
          | none => Except.error "column not found in row"
          | some v => Except.ok v.valStr) with
      | .error e => .error e
      | .ok rec_ =>
          match rest.mapM (fun r =>
              match r.lookup idCol with
              | none => Except.error "column not found in row"
              | some v => Except.ok v.valStr) with
          | .error e => .error e
          | .ok revs => NewRow header (rec_ ++ [String.intercalate sep revs])

/-- `opFindDuplicates`: one row per group of size at least two, with the
remaining members' id values joined by the separator. -/
def opFindDuplicates (rows : List Row) (defs : ValueDefs) (args : OFuncArgs) :
    Except String OpResult :=
  match argSliceString args "indexCols" with
  | .error e => .error e
  | .ok cols =>
    match argSliceString args "outCols" with
    | .error e => .error e
    | .ok outCols =>
      match argString args "idCol" with
      | .error e => .error e
      | .ok idCol =>
        match argString args "dupeIdsCol" with
        | .error e => .error e
        | .ok dupeIdsCol =>
          match argString args "sep" with
          | .error e => .error e
          | .ok sep =>
            match buildGroups cols rows with
            | none => .error "column not found in row"
            | some m =>
              match findOutDefs defs outCols with
              | .error e => .error e
              | .ok hdrDefs =>
                let header := mkHeader (hdrDefs ++ [⟨dupeIdsCol, TypStr, "", false, true⟩])
                match (m.filter (fun g => g.2.length ≠ 1)).mapM
                    (fun g => findDupesRow header outCols idCol sep g.2) with
                | .error e => .error e
                | .ok outRows =>
                    .ok { newSource := rows, out := .fresh outRows (headerToDefs header) }

/-- The inner scan of `opMergeDupes` for one output column: take the
first member's value unless merging is on and the value is empty and a
later member remains; the last member's value is taken unconditionally. -/
def pickVal (mergeValues : Bool) (col : String) : List Row → Except String String
  | [] => .error "empty group"
  | r :: rest =>
      match r.lookup col with
      | none => .error "column not found in row"
      | some v =>
          if mergeValues ∧ v.valStr = "" ∧ rest ≠ [] then pickVal mergeValues col rest
          else .ok v.valStr

/-- `opMergeDupes`: one row per group; per output column the value picked
by `pickVal`, re-entering `NewValue` through `NewRow`. -/
def opMergeDupes (rows : List Row) (defs : ValueDefs) (args : OFuncArgs) :
    Except String OpResult :=
  match argSliceString args "indexCols" with
  | .error e => .error e
  | .ok cols =>
    match argSliceString args "outCols" with
    | .error e => .error e
    | .ok outCols =>
      match argBool args "mergeValues" with
      | .error e => .error e
      | .ok mergeValues =>
        match buildGroups cols rows with
        | none => .error "column not found in row"
        | some m =>
          match findOutDefs defs outCols with
          | .error e => .error e
          | .ok hdrDefs =>
            let header := mkHeader hdrDefs
            match m.mapM (fun g => do
                let rec_ ← outCols.mapM (fun c => pickVal mergeValues c g.2)
                NewRow header rec_) with
            | .error e => .error e
            | .ok outRows =>
                .ok { newSource := rows, out := .fresh outRows (headerToDefs header) }

/-- Modelled from the spec: which group member `mergeDupes` should emit
for a column — the first member when merging is off, else the first
member with a non-empty value, else the last member. -/
def mergeSelect (mergeValues : Bool) (col : String) (g : List Row) : Option Value :=
  if mergeValues then
    match g.find? (fun r => (((r.lookup col).map Value.valStr).getD "") ≠ "") with
    | some r => r.lookup col
    | none =>
        match g.getLast? with
        | some r => r.lookup col
        | none => none
  else
    match g.head? with
    | some r => r.lookup col
    | none => none

/-! ### The concurrent hash operation (src `opMd5File`) -/

/-- What the file system holds at a path: `missing` (the `os.Stat` /
`os.IsNotExist` case), `unreadable` (the `ioutil.ReadFile` error case) or
the file's bytes. -/
inductive FileRes where
  | missing
  | unreadable
  | content (bytes : List Nat)

/-- The `"0123456789abcdef"` table of `encoding/hex`. -/
def hexChars : List Char :=
  "0123456789abcdef".data

/-- One lowercase hex digit. -/
def hexDigit (n : Nat) : Char :=
  hexChars.getD n '0'

/-- Model of `hex.EncodeToString`: two lowercase hex digits per byte. -/
def hexEncode (bs : List Nat) : String :=
  String.mk (bs.foldr (fun b acc => hexDigit (b / 16 % 16) :: hexDigit (b % 16) :: acc) [])

/-- The column definition `opMd5File` creates for the hash column. -/
def md5ColDefOf (md5Col : String) : ColDef :=
  ⟨md5Col, TypStr, "", false, true⟩

/-- The hash string `opMd5File` writes for one filename: empty when the
file is missing or unreadable, else the hex digest. `md5sum` abstracts
the `crypto/md5` digest (16 bytes of the content). -/
def md5CellStr (md5sum : List Nat → List Nat) (fs : String → FileRes)
    (filename : String) : String :=
  match fs filename with
  | .missing => ""
  | .unreadable => ""
  | .content bs => hexEncode (md5sum bs)

/-- `opMd5File`: per row, write the hash of the file named by the
filename column into the hash column, mutating the row in place.  Each
task owns one row and the wait group joins them all, so the bounded
concurrency has the same outcome as this sequential map; the returned
output slice is the mutated input slice (`cpRows := *rows`), modelled by
`OpOut.aliased`. -/
def opMd5File (md5sum : List Nat → List Nat) (fs : String → FileRes)
    (rows : List Row) (defs : ValueDefs) (args : OFuncArgs) :
    Except String OpResult :=
  match argString args "filenameCol" with
  | .error e => .error e
  | .ok filenameCol =>
    match argString args "md5Col" with
    | .error e => .error e
    | .ok md5Col =>
      match argSliceString args "outCols" with
      | .error e => .error e
      | .ok outCols =>
        match argInt args "threads" with
        | .error e => .error e
        | .ok threads =>
          match findOutDefs defs outCols with
          | .error e => .error e
          | .ok hdrDefs =>
            let md5ColDef := md5ColDefOf md5Col
            let header := mkHeader (hdrDefs ++ [md5ColDef])
            -- the admission bound; it gates parallelism only
            let _threads := if (rows.length : Int) < threads then (rows.length : Int) else threads
            match rows.mapM (fun r =>
                match r.lookup filenameCol with
                | none => Except.error "column not found in row"
                | some v =>
                    let md5Str := md5CellStr md5sum fs v.valStr
                    match NewValue md5ColDef md5Str with
                    | .ok mv => Except.ok (r.set md5Col mv)
                    | .error _ => Except.ok r) with
            | .error e => .error e
            | .ok newRows =>
                .ok { newSource := newRows, out := .aliased (headerToDefs header) }

/-! ### Pipeline executor (src ReadCsv, lines 353-406) -/

/-- An operation capability in the registry: the declared argument shapes
and the executable transformation. -/
structure MOperation where
  argDef : ArgDefM
  exec : List Row → ValueDefs → OFuncArgs → Except String OpResult

/-- The operations map.  `sort` mutates through `sort.Slice` and is
modelled relationally by `sortSliceAllowed`, so it is not part of the
functional registry. -/
def Registry : Type := List (String × MOperation)

/-- Lookup in the operations map. -/
def Registry.find (reg : Registry) (name : String) : Option MOperation :=
  match reg with
  | [] => none
  | (k, op) :: rest => if k = name then some op else Registry.find rest name

/-- The built-in operations of ops_builtin.go (minus `sort`, see
`Registry`), with the digest function and the file system abstracted. -/
def builtinOps (md5sum : List Nat → List Nat) (fs : String → FileRes) : Registry :=
  [ ("print", ⟨[("cols", .slice)], fun r d a => opPrint r d a⟩),
    ("toFile", ⟨[("filename", .scalar), ("cols", .slice)], fun r d a => opToFile r d a⟩),
    ("dupesCount",
      ⟨[("indexCols", .slice), ("outCols", .slice), ("countCol", .scalar), ("gt", .scalar)],
        fun r d a => opDupesCount r d a⟩),
    ("findDuplicates",
      ⟨[("indexCols", .slice), ("outCols", .slice), ("idCol", .scalar),
        ("dupeIdsCol", .scalar), ("sep", .scalar)],
        fun r d a => opFindDuplicates r d a⟩),
    ("mergeDupes",
      ⟨[("indexCols", .slice), ("outCols", .slice), ("mergeValues", .scalar)],
        fun r d a => opMergeDupes r d a⟩),
    ("filesMd5",
      ⟨[("filenameCol", .scalar), ("md5Col", .scalar), ("outCols", .slice),
        ("threads", .scalar)],
        fun r d a => opMd5File md5sum fs r d a⟩) ]

/-- A reference to a dataset state: which slice cell its rows live in
(capturing Go slice aliasing) plus its column definitions. -/
structure StateRef where
  cell : Nat
  defs : ValueDefs
deriving DecidableEq, Repr

/-- The `states` map of ReadCsv. -/
def StatesMap : Type := List (String × StateRef)

/-- Lookup in the states map. -/
def StatesMap.find (m : StatesMap) (name : String) : Option StateRef :=
  match m with
  | [] => none
  | (k, s) :: rest => if k = name then some s else StatesMap.find rest name

/-- Map update in the states map. -/
def StatesMap.set (m : StatesMap) (name : String) (s : StateRef) : StatesMap :=
  match m with
  | [] => [(name, s)]
  | (k, w) :: rest => if k = name then (k, s) :: rest else (k, w) :: StatesMap.set rest name s

/-- The mutable store of the pipeline: cell 0 is the backing array of the
base dataset (the `rows` slice of ReadCsv), later cells are fresh output
slices retained by `keepState`. -/
structure PipeSt where
  cells : List (List Row)
  states : StatesMap

/-- What one operation invocation was handed: the state cell, its row
contents at that moment, and its column definitions. -/
structure TraceEntry where
  opName : String
  cellIn : Nat
  rowsIn : List Row
  defsIn : ValueDefs

/-- Resolve the declared arguments of an invocation
(`parseOpArgs` loop of ReadCsv). -/
def buildOpArgs (argDef : ArgDefM) (args : List (String × OpArg)) :
    Except String OFuncArgs :=
  args.foldlM
    (fun fa (p : String × OpArg) =>
      match argDef.find p.1 with
      | none => .error ("unexpected argument " ++ p.1)
      | some k => .ok (OFuncArgs.set fa p.1 (parseOpArgs k p.2)))
    []

/-- One iteration of the operation loop of ReadCsv: register the base
state under the first invocation's name, default the execution state to
the base dataset, resolve arguments, look up `fromState` if named,
execute, and retain the output when `keepState` is set. -/
def stepOp (reg : Registry) (base : StateRef) (st : PipeSt) (opi : Nat)
    (op : OperationConf) : Except String (PipeSt × TraceEntry) :=
  let states0 := if opi = 0 then st.states.set op.name base else st.states
  match reg.find op.operation with
  | none => .error "operation does not exist"
  | some operation =>
    match buildOpArgs operation.argDef op.args with
    | .error e => .error e
    | .ok funcArgs =>
      match (if op.fromState ≠ "" then StatesMap.find states0 op.fromState else some base) with
      | none => .error "state does not exist or was never kept"
      | some state =>
        let rowsIn := st.cells.getD state.cell []
        match operation.exec rowsIn state.defs funcArgs with
        | .error e => .error e
        | .ok res =>
          let cells1 := st.cells.set state.cell res.newSource
          let next : List (List Row) × StatesMap :=
            if op.keepState then
              match res.out with
              | .fresh r d => (cells1 ++ [r], states0.set op.name ⟨cells1.length, d⟩)
              | .aliased d => (cells1, states0.set op.name ⟨state.cell, d⟩)
            else (cells1, states0)
          .ok (⟨next.1, next.2⟩, ⟨op.name, state.cell, rowsIn, state.defs⟩)

/-- The operation loop of ReadCsv over the remaining invocations,
collecting what each invocation was handed. -/
def runPipelineAux (reg : Registry) (base : StateRef) :
    PipeSt → Nat → List OperationConf → Except String (PipeSt × List TraceEntry)
  | st, _, [] => .ok (st, [])
  | st, opi, op :: rest =>
      match stepOp reg base st opi op with
      | .error e => .error e
      | .ok (st', e) =>
          match runPipelineAux reg base st' (opi + 1) rest with
          | .error er => .error er
          | .ok (stF, tr) => .ok (stF, e :: tr)

/-- The pipeline part of ReadCsv: the base dataset (the result of the
row-build pass) is cell 0, the base state is `⟨0, defs⟩`. -/
def runPipeline (reg : Registry) (rows0 : List Row) (defs0 : ValueDefs)
    (ops : List OperationConf) : Except String (PipeSt × List TraceEntry) :=
  runPipelineAux reg ⟨0, defs0⟩ ⟨[rows0], []⟩ 0 ops

/-- What ReadCsv returns on success: the final contents of the base
slice (`return rows` — the row-build slice, whatever in-place mutation it
suffered). -/
def readCsvPipeline (reg : Registry) (rows0 : List Row) (defs0 : ValueDefs)
    (ops : List OperationConf) : Except String (List Row) :=
  match runPipeline reg rows0 defs0 ops with
  | .error e => .error e
  | .ok (st, _) => .ok (st.cells.getD 0 [])

/-! ## Spec-side expected outputs for the grouping operations -/

/-- Placeholder column definition (never reached under the theorems'
hypotheses). -/
def junkDef : ColDef := ⟨"", TypStr, "", false, false⟩

/-- Placeholder value (never reached under the theorems' hypotheses). -/
def junkValue : Value := ⟨none, none, none, junkDef, ""⟩

/-- Assemble a row by binding each definition's name to its value, in
order (later bindings replace earlier ones, as in the Go map). -/
def rowOfPairs (pairs : List (ColDef × Value)) : Row :=
  pairs.foldl (fun row p => row.set p.1.name p.2) []

/-- The count Value `dupesCount` creates: the Itoa of the group size run
through `NewValue` on the int-typed count column. -/
def countValue (cc : String) (n : Nat) : Value :=
  ⟨some (Int.ofNat n), some ((Int.ofNat n : Int) : Rat),
   some (decide ((Int.ofNat n : Int) ≤ 0)), ⟨cc, TypInt, "", false, true⟩, itoa n⟩

/-- The row `mergeDupes` should emit for a group: per output column the
member value selected by `mergeSelect`. -/
def mergeRowExpected (defs : ValueDefs) (ocols : List String) (mv : Bool)
    (g : List Row) : Row :=
  rowOfPairs (ocols.map (fun c =>
    ((defs.find c).getD junkDef, (mergeSelect mv c g).getD junkValue)))

/-- The row `dupesCount` should emit for a qualifying group: the first
member's output-column values plus the count column. -/
def dupesRowExpected (defs : ValueDefs) (ocols : List String) (cc : String)
    (g : List Row) : Row :=
  rowOfPairs
    (ocols.map (fun c =>
        ((defs.find c).getD junkDef, (g.head?.bind (fun r => r.lookup c)).getD junkValue))
      ++ [(⟨cc, TypInt, "", false, true⟩, countValue cc g.length)])

/-! ## Concrete test fixtures used by the claim theorems -/

/-- A plain string-typed Value, as `NewValue` builds for a string column
whose raw value is non-empty and trimmed. -/
def strValOf (d : ColDef) (s : String) : Value :=
  ⟨none, none, none, d, s⟩

/-- Float column used by claim C3. -/
def floatDefC3 : ColDef := ⟨"f", TypFloat, "", false, false⟩

/-- Int column used by claim C3. -/
def intDefC3 : ColDef := ⟨"n", TypInt, "", false, false⟩

def ratHalfC3 : Rat := 1 / 2

/-- The Value the engine builds for `"0.5"` on a float column. -/
def valHalfC3 : Value := ⟨some 0, some ratHalfC3, some true, floatDefC3, "0.5"⟩

/-- The Value the engine builds for `"3"` on an int column. -/
def vInt3C3 : Value := ⟨some 3, some ((3 : Int) : Rat), some false, intDefC3, "3"⟩

/-- Fixtures for claim C8: a cell in focus and a row. -/
def dFocusC8 : ColDef := ⟨"c", TypStr, "", false, false⟩

def vFocusC8 : Value := strValOf dFocusC8 "focus"

def rowC8 : Row := [("other", strValOf dFocusC8 "x")]

/-- Fixtures for claims C2 and C7 (sort): string columns a, b and an
identifying column id that is not a sort column. -/
def dAC7 : ColDef := ⟨"a", TypStr, "", false, false⟩

def dBC7 : ColDef := ⟨"b", TypStr, "", false, false⟩

def dIdC7 : ColDef := ⟨"id", TypStr, "", false, false⟩

def defsC7 : ValueDefs := [("a", dAC7), ("b", dBC7), ("id", dIdC7)]

def r0C7 : Row := [("a", strValOf dAC7 "x"), ("b", strValOf dBC7 "1")]

def r1C7 : Row := [("a", strValOf dAC7 "x"), ("b", strValOf dBC7 "2")]

def rows3C7 : List Row := [r0C7, r1C7, r0C7]

/-- Fixtures for claim C2: two rows equal on both sort columns and
distinguished by id. -/
def rAC2 : Row :=
  [("a", strValOf dAC7 "x"), ("b", strValOf dBC7 "y"), ("id", strValOf dIdC7 "p")]

def rBC2 : Row :=
  [("a", strValOf dAC7 "x"), ("b", strValOf dBC7 "y"), ("id", strValOf dIdC7 "q")]

/-- Fixtures for claim C5: a string column with a whitespace-padded
default. -/
def dXC5 : ColDef := ⟨"x", TypStr, "d ", false, false⟩

def defsC5 : ValueDefs := [("x", dXC5)]

/-- The Value the engine builds for an empty cell of that column: the
configured default, whitespace included. -/
def vPadC5 : Value := strValOf dXC5 "d "

/-- The value `opMergeDupes` actually emits for it: re-construction
trims the default. -/
def vTrimC5 : Value := strValOf dXC5 "d"

def rowPadC5 : Row := [("x", vPadC5)]

def argsC5 : OFuncArgs :=
  [("indexCols", .strList ["x"]), ("outCols", .strList ["x"]), ("mergeValues", .str "false")]

/-- Fixtures for the C5 witness: the spec example group over a column
with no default. -/
def dYC5 : ColDef := ⟨"x", TypStr, "", false, false⟩

def defsYC5 : ValueDefs := [("x", dYC5)]

def rEmptyC5 : Row := [("x", strValOf dYC5 "")]

def rVC5 : Row := [("x", strValOf dYC5 "v")]

def argsTC5 : OFuncArgs :=
  [("indexCols", .strList []), ("outCols", .strList ["x"]), ("mergeValues", .str "true")]

/-- Fixtures for the C6 witness: the spec example of `dupesCount`. -/
def dCodeC6 : ColDef := ⟨"code", TypStr, "", false, false⟩

def defsC6 : ValueDefs := [("code", dCodeC6)]

def rowCodeC6 (s : String) : Row := [("code", strValOf dCodeC6 s)]

def rowsC6 : List Row := [rowCodeC6 "AAA", rowCodeC6 "AAA", rowCodeC6 "BBB"]

def argsC6 : OFuncArgs :=
  [("indexCols", .strList ["code"]), ("outCols", .strList ["code"]),
   ("countCol", .str "cnt"), ("gt", .str "1")]

def grpAC6 : List Row := [rowCodeC6 "AAA", rowCodeC6 "AAA"]

def mC6 : List (String × List Row) := [("AAA", grpAC6), ("BBB", [rowCodeC6 "BBB"])]

/-- `dupesCount` over the whitespace-padded-default column of the C5
fixture, with threshold 0 so the single-row group emits. -/
def argsPadC6 : OFuncArgs :=
  [("indexCols", .strList ["x"]), ("outCols", .strList ["x"]),
   ("countCol", .str "cnt"), ("gt", .str "0")]

/-- The int-typed count value `dupesCount` emits for a group of size 1:
the engine re-parse of the count string "1". -/
def cntOneC6 : Value :=
  ⟨some 1, some 1, some false, ⟨"cnt", TypInt, "", false, true⟩, "1"⟩

/-- Fixtures for the C4 witness: a two-file filesystem and a stub
digest. -/
def md5C4 : List Nat → List Nat := fun _ => [171]

def fsC4 : String → FileRes := fun s => if s = "a" then .content [0] else .missing

def dFnC4 : ColDef := ⟨"fn", TypStr, "", false, false⟩

def defsC4 : ValueDefs := [("fn", dFnC4)]

def rAC4 : Row := [("fn", strValOf dFnC4 "a")]

def rBC4 : Row := [("fn", strValOf dFnC4 "b")]

def argsC4 : OFuncArgs :=
  [("filenameCol", .str "fn"), ("md5Col", .str "h"), ("outCols", .strList ["fn"]),
   ("threads", .str "1")]

/-- Shared pipeline fixtures for claims C1 and C10. -/
def md5P : List Nat → List Nat := fun _ => []

def fsP : String → FileRes := fun _ => .missing

def regP : Registry := builtinOps md5P fsP

def dFnP : ColDef := ⟨"filename", TypStr, "", false, false⟩

def defs0P : ValueDefs := [("filename", dFnP)]

def row0P : Row := [("filename", strValOf dFnP "f")]

/-- The hash Value `filesMd5` writes when the file is missing. -/
def vMd5P : Value := ⟨none, none, none, md5ColDefOf "md5", ""⟩

/-- The base row after `filesMd5` mutated it in place. -/
def rowMut1P : Row := [("filename", strValOf dFnP "f"), ("md5", vMd5P)]

def opMd5ConfP : OperationConf :=
  { name := "m", operation := "filesMd5", newState := false, keepState := false,
    fromState := "",
    args := [("filenameCol", ⟨"filename", []⟩), ("md5Col", ⟨"md5", []⟩),
             ("outCols", ⟨"", ["filename"]⟩), ("threads", ⟨"1", []⟩)] }

def opPrintConfP : OperationConf :=
  { name := "p", operation := "print", newState := false, keepState := false,
    fromState := "", args := [("cols", ⟨"", ["filename"]⟩)] }

/-- The resolved FuncArgs of `opMd5ConfP`. -/
def argsMd5P : OFuncArgs :=
  [("filenameCol", .str "filename"), ("md5Col", .str "md5"),
   ("outCols", .strList ["filename"]), ("threads", .str "1")]

/-- The output defs `filesMd5` builds in the C1 run. -/
def outDefsMd5P : ValueDefs :=
  [("filename", dFnP), ("md5", md5ColDefOf "md5")]

/-- The pipeline state after running just `opPrintConfP` (for the C1
witness). -/
def stPW : PipeSt := ⟨[[row0P]], [("p", ⟨0, defs0P⟩)]⟩

def ePW : TraceEntry := ⟨"p", 0, [row0P], defs0P⟩

/-- A registered operation that never mutates the row slice it is
handed: every successful run returns its input slice contents unchanged
as the new source contents.  `print` and `toFile` are such; `filesMd5`
is not (it appends the hash column to each row in place). -/
def NonMutating (reg : Registry) (name : String) : Prop :=
  ∀ mop rows defs args res, reg.find name = some mop →
    mop.exec rows defs args = .ok res → res.newSource = rows

/-! ## General lemmas -/

theorem charLtB_irrefl (a : Char) : charLtB a a = false := by
  unfold charLtB
  cases h : Nat.blt a.toNat a.toNat
  · rfl
  · exact absurd (Nat.le_of_ble_eq_true h) (by omega)

theorem strLtB_irrefl : ∀ cs : List Char, strLtB cs cs = false
  | [] => rfl
  | c :: rest => by
      unfold strLtB
      rw [charLtB_irrefl]
      simp [strLtB_irrefl rest]

theorem strLt_irrefl (s : String) : strLt s s = false :=
  strLtB_irrefl s.data

theorem rowValStrAt_eq (rows : List Row) (i : Nat) (c : String) :
    rowValStrAt rows i c
      = ((rows.get? i).bind (fun r => r.lookup c)).map Value.valStr := by
  unfold rowValStrAt
  cases rows.get? i with
  | none => rfl
  | some r => cases r.lookup c <;> rfl

theorem rowValFloatAt_eq (rows : List Row) (i : Nat) (c : String) :
    rowValFloatAt rows i c
      = ((rows.get? i).bind (fun r => r.lookup c)).bind Value.valFloat := by
  unfold rowValFloatAt
  cases rows.get? i with
  | none => rfl
  | some r => cases r.lookup c <;> rfl

theorem dropWhile_eq_self_of_none {p : Char → Bool} :
    ∀ cs : List Char, (∀ c ∈ cs, p c = false) → cs.dropWhile p = cs
  | [], _ => rfl
  | c :: rest, h => by
      unfold List.dropWhile
      rw [h c (List.mem_cons_self c rest)]

theorem trimSpaceList_eq_self (cs : List Char)
    (h : ∀ c ∈ cs, c.isWhitespace = false) : trimSpaceList cs = cs := by
  unfold trimSpaceList
  rw [dropWhile_eq_self_of_none cs h,
      dropWhile_eq_self_of_none cs.reverse (fun c hc => h c (List.mem_reverse.mp hc)),
      List.reverse_reverse]

theorem string_mk_data (s : String) : String.mk s.data = s := rfl

theorem trimSpace_eq_self (s : String)
    (h : ∀ c ∈ s.data, c.isWhitespace = false) : trimSpace s = s := by
  unfold trimSpace
  rw [trimSpaceList_eq_self s.data h, string_mk_data]

/-- Every hex digit emitted by `hexDigit` is a decimal digit or a
lowercase `a`-`f`. -/
theorem hexDigit_lower (n : Nat) : (hexDigit n).isDigit ∨ ('a' ≤ hexDigit n ∧ hexDigit n ≤ 'f') := by
  unfold hexDigit
  by_cases h : n < 16
  · interval_cases n <;> decide
  · rw [List.getD_eq_default]
    · left; decide
    · rw [show hexChars.length = 16 from rfl]
      omega

theorem hexEncode_chars :
    ∀ bs : List Nat, ∀ c ∈ (hexEncode bs).data,
      c.isDigit ∨ ('a' ≤ c ∧ c ≤ 'f')
  | [], c, hc => absurd hc (by simp [hexEncode])
  | b :: rest, c, hc => by
      unfold hexEncode at hc
      simp only [List.foldr_cons, List.mem_cons] at hc
      rcases hc with hc | hc | hc
      · rw [hc]; exact hexDigit_lower _
      · rw [hc]; exact hexDigit_lower _
      · exact hexEncode_chars rest c hc

theorem hexLower_not_ws (c : Char)
    (h : c.isDigit ∨ ('a' ≤ c ∧ c ≤ 'f')) : c.isWhitespace = false := by
  cases hw : c.isWhitespace
  · rfl
  · exfalso
    simp only [Char.isWhitespace, Bool.or_eq_true, decide_eq_true_eq] at hw
    obtain ((rfl | rfl) | rfl) | rfl := hw <;> revert h <;> decide

/-- If a function succeeds pointwise with the values of `g`, `mapM`
succeeds with the mapped list. -/
theorem mapM_ok_map {α β : Type} (f : α → Except String β) (g : α → β) :
    ∀ l : List α, (∀ a ∈ l, f a = .ok (g a)) → l.mapM f = .ok (l.map g)
  | [], _ => rfl
  | a :: rest, h => by
      rw [List.mapM_cons, h a (List.mem_cons_self a rest),
          mapM_ok_map f g rest (fun x hx => h x (List.mem_cons_of_mem _ hx))]
      rfl

/-- Pointwise consequences of a successful `mapM`. -/
theorem mapM_ok_get {α β : Type} (f : α → Except String β) :
    ∀ (l : List α) (l' : List β), l.mapM f = .ok l' →
      l'.length = l.length ∧
        ∀ k a, l.get? k = some a → ∃ b, l'.get? k = some b ∧ f a = .ok b
  | [], l', h => by
      cases l' with
      | nil => exact ⟨rfl, by intro k a ha; cases k <;> cases ha⟩
      | cons b bs => cases h
  | a :: rest, l', h => by
      rw [List.mapM_cons] at h
      cases hfa : f a with
      | error e => rw [hfa] at h; cases h
      | ok b =>
          rw [hfa] at h
          cases hrest : rest.mapM f with
          | error e =>
              rw [hrest] at h
              cases h
          | ok bs =>
              rw [hrest] at h
              have h' : Except.ok (ε := String) (b :: bs) = Except.ok l' := h
              cases h'
              obtain ⟨hl, hp⟩ := mapM_ok_get f rest bs hrest
              refine ⟨by simp [hl], ?_⟩
              intro k x hx
              cases k with
              | zero =>
                  cases hx
                  exact ⟨b, rfl, hfa⟩
              | succ k =>
                  exact hp k x hx

theorem Row.lookup_set_self : ∀ (r : Row) (n : String) (v : Value),
    (Row.set r n v).lookup n = some v
  | [], n, v => by simp [Row.set, Row.lookup]
  | (k, w) :: rest, n, v => by
      unfold Row.set
      by_cases h : k = n
      · rw [if_pos h]; unfold Row.lookup; rw [if_pos h]
      · rw [if_neg h]; unfold Row.lookup; rw [if_neg h]; exact Row.lookup_set_self rest n v

theorem Row.lookup_set_other : ∀ (r : Row) (n m : String) (v : Value), n ≠ m →
    (Row.set r n v).lookup m = r.lookup m
  | [], n, m, v, h => by
      unfold Row.set Row.lookup
      rw [if_neg h]
      rfl
  | (k, w) :: rest, n, m, v, h => by
      unfold Row.set
      by_cases hk : k = n
      · rw [if_pos hk]
        unfold Row.lookup
        rw [if_neg (by rw [hk]; exact h), if_neg (by rw [hk]; exact h)]
      · rw [if_neg hk]
        unfold Row.lookup
        by_cases hm : k = m
        · rw [if_pos hm, if_pos hm]
        · rw [if_neg hm, if_neg hm]
          exact Row.lookup_set_other rest n m v h

theorem foldl_set_lookup_absent :
    ∀ (pairs : List (ColDef × Value)) (row0 : Row) (c : String),
      (∀ p ∈ pairs, p.1.name ≠ c) →
      (pairs.foldl (fun row p => Row.set row p.1.name p.2) row0).lookup c = row0.lookup c
  | [], _, _, _ => rfl
  | p :: rest, row0, c, h => by
      simp only [List.foldl_cons]
      rw [foldl_set_lookup_absent rest _ c (fun q hq => h q (List.mem_cons_of_mem _ hq))]
      exact Row.lookup_set_other row0 _ c p.2 (h p (List.mem_cons_self p rest))

theorem foldl_set_lookup :
    ∀ (pairs : List (ColDef × Value)) (row0 : Row) (c : String) (v : Value),
      (∃ p ∈ pairs, p.1.name = c) →
      (∀ p ∈ pairs, p.1.name = c → p.2 = v) →
      (pairs.foldl (fun row p => Row.set row p.1.name p.2) row0).lookup c = some v
  | [], _, _, _, hex, _ => absurd hex (by simp)
  | p :: rest, row0, c, v, hex, hall => by
      simp only [List.foldl_cons]
      by_cases hrest : ∃ q ∈ rest, q.1.name = c
      · exact foldl_set_lookup rest _ c v hrest
          (fun q hq => hall q (List.mem_cons_of_mem _ hq))
      · have hp : p.1.name = c := by
          rcases hex with ⟨q, hq, hqc⟩
          rcases List.mem_cons.mp hq with rfl | hq'
          · exact hqc
          · exact absurd ⟨q, hq', hqc⟩ hrest
        rw [foldl_set_lookup_absent rest _ c (fun q hq hqc => hrest ⟨q, hq, hqc⟩),
            hall p (List.mem_cons_self p rest) hp, hp]
        exact Row.lookup_set_self row0 c v

theorem rowOfPairs_lookup (pairs : List (ColDef × Value)) (c : String) (v : Value)
    (hex : ∃ p ∈ pairs, p.1.name = c) (hall : ∀ p ∈ pairs, p.1.name = c → p.2 = v) :
    (rowOfPairs pairs).lookup c = some v :=
  foldl_set_lookup pairs [] c v hex hall

theorem mkHeaderFrom_find :
    ∀ (ds : List ColDef) (n k : Nat), Header.find (mkHeaderFrom n ds) (n + k) = ds.get? k
  | [], _, _ => rfl
  | d :: rest, n, k => by
      unfold mkHeaderFrom Header.find
      cases k with
      | zero => rw [if_pos (by omega)]; rfl
      | succ k =>
          rw [if_neg (by omega)]
          have h := mkHeaderFrom_find rest (n + 1) k
          rw [show n + (k + 1) = (n + 1) + k by omega]
          exact h

theorem mkHeader_find (ds : List ColDef) (k : Nat) :
    Header.find (mkHeader ds) k = ds.get? k := by
  have h := mkHeaderFrom_find ds 0 k
  rwa [Nat.zero_add] at h

theorem NewRowGo_pairs (header : Header) :
    ∀ (pairs : List (ColDef × Value)) (i : Nat) (row0 : Row),
      (∀ k p, pairs.get? k = some p →
          Header.find header (i + k) = some p.1 ∧ NewValue p.1 p.2.valStr = .ok p.2) →
      NewRowGo header i (pairs.map (fun p => p.2.valStr)) row0 =
        .ok (pairs.foldl (fun row p => Row.set row p.1.name p.2) row0)
  | [], _, _, _ => rfl
  | p :: rest, i, row0, h => by
      obtain ⟨hf, hnv⟩ := h 0 p rfl
      rw [Nat.add_zero] at hf
      simp only [List.map_cons, NewRowGo, List.foldl_cons]
      rw [hf]
      dsimp only
      rw [hnv]
      show NewRowGo header (i + 1) (rest.map (fun p => p.2.valStr)) (Row.set row0 p.1.name p.2)
          = _
      exact NewRowGo_pairs header rest (i + 1) (Row.set row0 p.1.name p.2)
        (fun k q hq => by
          have h' := h (k + 1) q hq
          rwa [show i + (k + 1) = (i + 1) + k by omega] at h')

theorem pickVal_mergeSelect (mv : Bool) (c : String) :
    ∀ g : List Row, g ≠ [] → (∀ r ∈ g, (r.lookup c).isSome) →
      ∃ v r_, r_ ∈ g ∧ r_.lookup c = some v ∧ mergeSelect mv c g = some v ∧
        pickVal mv c g = .ok v.valStr
  | [], hne, _ => absurd rfl hne
  | [r], _, hall => by
      obtain ⟨v, hv⟩ := Option.isSome_iff_exists.mp (hall r (List.mem_cons_self r []))
      refine ⟨v, r, List.mem_cons_self r [], hv, ?_, ?_⟩
      · unfold mergeSelect
        cases mv with
        | false => simp [hv]
        | true =>
            by_cases hvs : v.valStr = ""
            · simp [List.find?, hv, hvs]
            · simp [List.find?, hv, hvs]
      · unfold pickVal
        rw [hv]
        dsimp only
        rw [if_neg (by simp)]
  | r :: r2 :: rest, _, hall => by
      obtain ⟨v0, hv0⟩ :=
        Option.isSome_iff_exists.mp (hall r (List.mem_cons_self r (r2 :: rest)))
      cases mv with
      | false =>
          refine ⟨v0, r, List.mem_cons_self r (r2 :: rest), hv0, ?_, ?_⟩
          · unfold mergeSelect
            simp [hv0]
          · unfold pickVal
            rw [hv0]
            dsimp only
            rw [if_neg (by simp)]
      | true =>
          by_cases hvs : v0.valStr = ""
          · obtain ⟨v, r_, hmem, hlk, hsel, hpick⟩ :=
              pickVal_mergeSelect true c (r2 :: rest) (by simp)
                (fun x hx => hall x (List.mem_cons_of_mem _ hx))
            refine ⟨v, r_, List.mem_cons_of_mem _ hmem, hlk, ?_, ?_⟩
            · unfold mergeSelect at hsel ⊢
              rw [List.find?_cons_of_neg _ (by simp [hv0, hvs]),
                  List.getLast?_cons_cons]
              simpa using hsel
            · unfold pickVal
              rw [hv0]
              dsimp only
              rw [if_pos ⟨rfl, hvs, by simp⟩]
              exact hpick
          · refine ⟨v0, r, List.mem_cons_self r (r2 :: rest), hv0, ?_, ?_⟩
            · unfold mergeSelect
              rw [List.find?_cons_of_pos _ (by simp [hv0, hvs])]
              simp [hv0]
            · unfold pickVal
              rw [hv0]
              dsimp only
              rw [if_neg (by simp [hvs])]

theorem groupAdd_sound (univ : List Row) :
    ∀ (m : List (String × List Row)) (k : String) (r : Row),
      (∀ p ∈ m, p.2 ≠ [] ∧ ∀ x ∈ p.2, x ∈ univ) → r ∈ univ →
      ∀ p ∈ groupAdd m k r, p.2 ≠ [] ∧ ∀ x ∈ p.2, x ∈ univ
  | [], k, r, _, hr => by
      intro p hp
      simp only [groupAdd, List.mem_singleton] at hp
      subst hp
      exact ⟨by simp, by intro x hx; simp only [List.mem_singleton] at hx; subst hx; exact hr⟩
  | (k0, g) :: rest, k, r, hm, hr => by
      intro p hp
      unfold groupAdd at hp
      by_cases hk : k0 = k
      · rw [if_pos hk] at hp
        rcases List.mem_cons.mp hp with rfl | hp'
        · refine ⟨by simp, ?_⟩
          intro x hx
          rcases List.mem_append.mp hx with hx' | hx'
          · exact (hm (k0, g) (List.mem_cons_self _ _)).2 x hx'
          · simp only [List.mem_singleton] at hx'
            subst hx'
            exact hr
        · exact hm p (List.mem_cons_of_mem _ hp')
      · rw [if_neg hk] at hp
        rcases List.mem_cons.mp hp with rfl | hp'
        · exact hm (k0, g) (List.mem_cons_self _ _)
        · exact groupAdd_sound univ rest k r
            (fun q hq => hm q (List.mem_cons_of_mem _ hq)) hr p hp'

theorem buildGroups_aux (cols : List String) (univ : List Row) :
    ∀ (rows : List Row) (m0 m : List (String × List Row)),
      (∀ p ∈ m0, p.2 ≠ [] ∧ ∀ x ∈ p.2, x ∈ univ) →
      (∀ r ∈ rows, r ∈ univ) →
      List.foldlM (fun m r => (rowKeyM cols r).map (fun k => groupAdd m k r)) m0 rows
          = some m →
      ∀ p ∈ m, p.2 ≠ [] ∧ ∀ x ∈ p.2, x ∈ univ
  | [], m0, m, hm0, _, h => by
      simp only [List.foldlM_nil] at h
      cases h
      exact hm0
  | r :: rest, m0, m, hm0, hmem, h => by
      rw [List.foldlM_cons] at h
      cases hk : rowKeyM cols r with
      | none => rw [hk] at h; cases h
      | some k =>
          rw [hk] at h
          exact buildGroups_aux cols univ rest (groupAdd m0 k r) m
            (groupAdd_sound univ m0 k r hm0 (hmem r (List.mem_cons_self _ _)))
            (fun x hx => hmem x (List.mem_cons_of_mem _ hx)) h

theorem buildGroups_sound (cols : List String) (rows : List Row)
    (m : List (String × List Row)) (h : buildGroups cols rows = some m) :
    ∀ p ∈ m, p.2 ≠ [] ∧ ∀ x ∈ p.2, x ∈ rows :=
  buildGroups_aux cols rows rows [] m (by simp) (fun _ hr => hr) h

theorem digitVal_digitChars (d : Nat) (h : d < 10) :
    digitVal (digitChars.getD d '0') = some d := by
  interval_cases d <;> rfl

theorem digitsFoldAux :
    ∀ (l : List Nat) (a : Nat), (∀ d ∈ l, d < 10) →
      List.foldlM (fun a c => (digitVal c).map (fun d => a * 10 + d)) a
          (l.map (fun d => digitChars.getD d '0'))
        = some (l.foldl (fun x d => x * 10 + d) a)
  | [], _, _ => rfl
  | d :: rest, a, h => by
      simp only [List.map_cons, List.foldlM_cons]
      rw [digitVal_digitChars d (h d (List.mem_cons_self _ _))]
      exact digitsFoldAux rest (a * 10 + d) (fun x hx => h x (List.mem_cons_of_mem _ hx))

theorem foldl_reverse_digits (l : List Nat) :
    l.reverse.foldl (fun x d => x * 10 + d) 0 = Nat.ofDigits 10 l := by
  rw [List.foldl_reverse]
  induction l with
  | nil => simp [Nat.ofDigits]
  | cons d rest ih =>
      simp only [List.foldr_cons, Nat.ofDigits_cons, ih]
      ring

theorem goAtoi_mk_digits (l : List Nat) (hne : l ≠ []) (hlt : ∀ d ∈ l, d < 10) :
    goAtoi (String.mk (l.map (fun d => digitChars.getD d '0')))
      = some (Int.ofNat (l.foldl (fun x d => x * 10 + d) 0)) := by
  cases l with
  | nil => exact absurd rfl hne
  | cons d0 ds =>
      have h0 : d0 < 10 := hlt d0 (List.mem_cons_self _ _)
      have hplus : ¬ (digitChars.getD d0 '0' = '+') := by
        intro hc
        have hd := digitVal_digitChars d0 h0
        rw [hc, show digitVal '+' = none from rfl] at hd
        cases hd
      have hminus : ¬ (digitChars.getD d0 '0' = '-') := by
        intro hc
        have hd := digitVal_digitChars d0 h0
        rw [hc, show digitVal '-' = none from rfl] at hd
        cases hd
      show (if digitChars.getD d0 '0' = '+' then _
            else if digitChars.getD d0 '0' = '-' then _
            else (digitsFold (digitChars.getD d0 '0' :: ds.map (fun d => digitChars.getD d '0'))).map
                Int.ofNat) = _
      rw [if_neg hplus, if_neg hminus]
      show (List.foldlM (fun a c => (digitVal c).map (fun d => a * 10 + d)) 0
          ((d0 :: ds).map (fun d => digitChars.getD d '0'))).map Int.ofNat = _
      rw [digitsFoldAux (d0 :: ds) 0 hlt]
      rfl

theorem goAtoi_itoa (n : Nat) : goAtoi (itoa n) = some (Int.ofNat n) := by
  by_cases h0 : n = 0
  · subst h0; rfl
  · unfold itoa
    rw [if_neg h0]
    have hne : Nat.digits 10 n ≠ [] := Nat.digits_ne_nil_iff_ne_zero.mpr h0
    have hrne : (Nat.digits 10 n).reverse ≠ [] := by
      intro hc
      exact hne (List.reverse_eq_nil_iff.mp hc)
    have hlt : ∀ d ∈ (Nat.digits 10 n).reverse, d < 10 := by
      intro d hd
      exact Nat.digits_lt_base (by norm_num) (List.mem_reverse.mp hd)
    rw [goAtoi_mk_digits _ hrne hlt, foldl_reverse_digits, Nat.ofDigits_digits]

theorem itoa_chars (n : Nat) : ∀ c ∈ (itoa n).data, c.isDigit := by
  unfold itoa
  by_cases h0 : n = 0
  · rw [if_pos h0]
    decide
  · rw [if_neg h0]
    intro c hc
    obtain ⟨d, hd, rfl⟩ :=
      List.mem_map.mp (show c ∈ ((Nat.digits 10 n).reverse).map
          (fun d => digitChars.getD d '0') from hc)
    have hlt : d < 10 := Nat.digits_lt_base (by norm_num) (List.mem_reverse.mp hd)
    interval_cases d <;> decide

theorem itoa_ne_empty (n : Nat) : itoa n ≠ "" := by
  unfold itoa
  by_cases h0 : n = 0
  · rw [if_pos h0]
    decide
  · rw [if_neg h0]
    intro hc
    have hd := congrArg String.data hc
    simp only [List.map_eq_nil_iff, List.reverse_eq_nil_iff] at hd
    exact Nat.digits_ne_nil_iff_ne_zero.mpr h0 hd

theorem trimSpace_itoa (n : Nat) : trimSpace (itoa n) = itoa n :=
  trimSpace_eq_self _ (fun c hc => hexLower_not_ws c (Or.inl (itoa_chars n c hc)))

theorem NewValue_count (cc : String) (n : Nat) :
    NewValue ⟨cc, TypInt, "", false, true⟩ (itoa n) = .ok (countValue cc n) := by
  unfold NewValue ColDef.parseValStr
  simp only [trimSpace_itoa]
  rw [if_neg (itoa_ne_empty n)]
  dsimp only
  rw [if_neg (by decide : ¬ (TypInt = TypStr))]
  simp only [if_true]
  rw [goAtoi_itoa n]
  rfl

/-! ## Claim theorems -/

/-- C8: for every resolution context, resolving an ArgumentNode in which
none of the literal, list, or column-reference fields is set yields
exactly the string representation of the value currently in focus, and
this resolution never fails. -/
theorem C8_parseArgs_self_default (cell : Value) (row : Row) (arg : ParserArg)
    (hv : arg.value = "") (hvs : arg.values = []) (hc : arg.col = "")
    (hcs : arg.cols = []) :
    parseArgs cell row arg = .ok (.s cell.ValStr) := by
  cases arg with
  | mk v vs c cs =>
    simp only [ParserArg.value] at hv
    simp only [ParserArg.values] at hvs
    simp only [ParserArg.col] at hc
    simp only [ParserArg.cols] at hcs
    subst hv; subst hvs; subst hc; subst hcs
    simp [parseArgs]

theorem C8_witness :
    parseArgs vFocusC8 rowC8 (.mk "" [] "" []) = .ok (.s vFocusC8.ValStr) :=
  C8_parseArgs_self_default vFocusC8 rowC8 (.mk "" [] "" []) rfl rfl rfl rfl

/-- C9: the `ext` parser cannot be invoked successfully through its
declared argument contract: its ArgDef declares `value`, but the function
reads `filename`, so supplying `value` fails with "filename argument not
provided" and supplying `filename` is rejected by `validateParser`; only
an unvalidated `filename` argument (possible for dynamic columns, whose
chains skip validation) returns the extension without the dot. -/
theorem C9_ext_contract_mismatch :
    extParser [("value", .s "a.txt")] = .error "filename argument not provided" ∧
    validateParser ⟨"ext", [("filename", .mk "" [] "filename" [])]⟩
      = .error "parser does not take argument filename" ∧
    parserArgDefs "ext" = some [("value", .scalar)] ∧
    extParser [("filename", .s "a.txt")] = .ok "txt" :=
  ⟨rfl, rfl, rfl, rfl⟩

/-- C7: the sort comparator does NOT order each configured column by its
own configured direction: comparing rows 0 and 1 on columns `a, b` with
directions `asc, desc`, the code orders the `b` column ascending (it
reads the direction at the ROW index, `order[0]`), where the per-column
reading gives false; and a comparison touching a row index beyond the
direction list (here row 2) panics (out-of-range read, modelled `none`). -/
theorem C7_sort_direction_bug :
    sortLessGo [r0C7, r1C7] defsC7 ["a", "b"] ["asc", "desc"] 0 1
        = some (true, ["asc", "desc"]) ∧
    sortLessSpec [r0C7, r1C7] defsC7 ["a", "b"] ["asc", "desc"] 0 1 = some false ∧
    sortLessGo rows3C7 defsC7 ["a", "b"] ["asc", "desc"] 2 0 = none :=
  ⟨rfl, rfl, rfl⟩

/-- C2 counterexample: `sort.Slice` only guarantees a permutation that is
ordered under the comparator; for the input `[rAC2, rBC2]` — two rows
equal in every sort column but distinct — the swapped output `[rBC2,
rAC2]` satisfies that contract, so stability is not guaranteed. -/
theorem C2_counterexample :
    sortSliceAllowed defsC7 ["a", "b"] ["asc", "asc"] [rAC2, rBC2] [rBC2, rAC2] ∧
    rowsEqualOnCols ["a", "b"] rAC2 rBC2 ∧ rAC2 ≠ rBC2 := by
  refine ⟨⟨by decide, ?_⟩, by decide, by decide⟩
  intro i j hij hj
  simp only [List.length_cons, List.length_nil] at hj
  have hj1 : j = 1 := by omega
  have hi0 : i = 0 := by omega
  subst hj1; subst hi0
  intro hcontra
  rw [show sortLessB [rBC2, rAC2] defsC7 ["a", "b"] ["asc", "asc"] 1 0 = some false
      from rfl] at hcontra
  simp at hcontra

/-- C5 counterexample: on a string column with the whitespace-padded
default `"d "`, the engine itself builds the value `"d "` for an empty
cell, yet `mergeDupes` with mergeValues disabled emits `"d"` for the
one-member group: the emitted value is re-run through `NewValue`, which
trims it, so it is NOT the first group member's value. -/
theorem C5_counterexample :
    NewValue dXC5 "" = .ok vPadC5 ∧
    opMergeDupes [rowPadC5] defsC5 argsC5 =
      .ok { newSource := [rowPadC5], out := .fresh [[("x", vTrimC5)]] [("x", dXC5)] } ∧
    vTrimC5.valStr ≠ vPadC5.valStr :=
  ⟨rfl, rfl, by decide⟩

/-- C1 counterexample: in the pipeline `filesMd5; print` where neither
invocation names a `fromState`, the second invocation is handed the base
cell — but its rows are NOT the unmodified row-build output: `filesMd5`
mutated them in place, and they are exactly the output rows `filesMd5`
returned. -/
theorem C1_counterexample :
    runPipeline regP [row0P] defs0P [opMd5ConfP, opPrintConfP] =
      .ok (⟨[[rowMut1P]], [("m", ⟨0, defs0P⟩)]⟩,
           [⟨"m", 0, [row0P], defs0P⟩, ⟨"p", 0, [rowMut1P], defs0P⟩]) ∧
    opPrintConfP.fromState = "" ∧
    [rowMut1P] ≠ [row0P] ∧
    opMd5File md5P fsP [row0P] defs0P argsMd5P =
      .ok { newSource := [rowMut1P], out := .aliased outDefsMd5P } :=
  ⟨rfl, rfl, by decide, rfl⟩

/-- C3 counterexample: the Value built for `"0.5"` on a float column has
boolean projection `true` (it is derived from the TRUNCATED integer
projection `0`), while its float projection `1/2` is positive — so
"numeric projection ≤ 0 iff boolean projection" fails for the float
projection. -/
theorem C3_counterexample :
    NewValue floatDefC3 "0.5" = .ok valHalfC3 ∧
    valHalfC3.valBool = some true ∧
    valHalfC3.valFloat = some ratHalfC3 ∧
    ¬ (ratHalfC3 ≤ 0) := by
  have hq : (((0 : Nat) : Rat) + ((5 : Nat) : Rat) / ((10 : Rat) ^ (1 : Nat)))
      = ratHalfC3 := by norm_num [ratHalfC3]
  have h : goParseFloat "0.5" = some ratHalfC3 := by
    rw [show goParseFloat "0.5"
        = some (((0 : Nat) : Rat) + ((5 : Nat) : Rat) / ((10 : Rat) ^ (1 : Nat))) from rfl, hq]
  have hnum : ratHalfC3.num = 1 := by norm_num [ratHalfC3]
  have hden : ratHalfC3.den = 2 := by norm_num [ratHalfC3]
  have htr : goTrunc ratHalfC3 = 0 := by
    unfold goTrunc
    rw [hnum, hden]
    decide
  refine ⟨?_, rfl, rfl, by norm_num [ratHalfC3]⟩
  show NewValue floatDefC3 "0.5" = .ok valHalfC3
  unfold NewValue
  rw [show floatDefC3.parseValStr "0.5" = .ok "0.5" from rfl]
  simp only [floatDefC3, TypStr, TypInt, TypBool, TypFloat]
  norm_num
  rw [h]
  simp only [htr]
  rfl

/-- C3 amended: for every Value constructed from an int or float column,
the boolean projection is `true` iff the INTEGER projection (for float
columns: the truncation toward zero) is at most zero; for int columns the
float projection equals the integer one, so the claim also holds for it
there. -/
theorem C3_numeric_bool_projection (d : ColDef) (s : String) (v : Value)
    (ht : d.typ = TypInt ∨ d.typ = TypFloat) (h : NewValue d s = .ok v) :
    v.valInt.isSome ∧ v.valBool = some (decide (v.valInt.getD 0 ≤ 0)) ∧
      (d.typ = TypInt → v.valFloat = some ((v.valInt.getD 0 : Int) : Rat)) := by
  unfold NewValue at h
  cases hp : d.parseValStr s with
  | error e => rw [hp] at h; cases h
  | ok s' =>
    rw [hp] at h
    dsimp only at h
    rcases ht with ht | ht
    · rw [ht] at h
      rw [if_neg (by decide : ¬ (TypInt = TypStr)), if_pos rfl] at h
      cases hg : goAtoi s' with
      | none => rw [hg] at h; cases h
      | some n =>
          rw [hg] at h
          simp only [Except.ok.injEq] at h
          subst h
          exact ⟨rfl, rfl, fun _ => rfl⟩
    · rw [ht] at h
      rw [if_neg (by decide : ¬ (TypFloat = TypStr)), if_neg (by decide : ¬ (TypFloat = TypInt)),
          if_neg (by decide : ¬ (TypFloat = TypBool)), if_pos rfl] at h
      cases hg : goParseFloat s' with
      | none => rw [hg] at h; cases h
      | some q =>
          rw [hg] at h
          simp only [Except.ok.injEq] at h
          subst h
          refine ⟨rfl, rfl, fun hcon => ?_⟩
          rw [ht] at hcon
          simp [TypFloat, TypInt] at hcon

theorem normAt_length (order : List String) (colI : Nat) (d0 : String) :
    (normAt order colI d0).length = order.length := by
  unfold normAt; split <;> simp

theorem sortLessAux_equal (rows : List Row) (defs : ValueDefs) (i j : Nat) :
    ∀ (cols : List String) (colI : Nat) (order : List String),
      i < order.length →
      colI + cols.length ≤ order.length →
      (∀ c ∈ cols, ∃ d vi vj,
          defs.find c = some d ∧
          (rows.get? i).bind (fun r => r.lookup c) = some vi ∧
          (rows.get? j).bind (fun r => r.lookup c) = some vj ∧
          vi.valStr = vj.valStr ∧ vi.valFloat = vj.valFloat ∧
          ((d.typ = TypFloat ∨ d.typ = TypInt) → vi.valFloat.isSome)) →
      ∃ ord, sortLessAux rows defs i j cols colI order = some (false, ord)
  | [], _colI, order, _, _, _ => ⟨order, rfl⟩
  | c :: rest, colI, order, hi, hlen, hcols => by
      obtain ⟨d, vi, vj, hd, hvi, hvj, hstr, hfl, hfs⟩ :=
        hcols c (List.mem_cons_self c rest)
      have hcolI : colI < order.length := by
        simp only [List.length_cons] at hlen; omega
      obtain ⟨d0, hd0⟩ : ∃ d0, order.get? colI = some d0 := by
        cases ho : order.get? colI with
        | none => exact absurd (List.get?_eq_none.mp ho) (by omega)
        | some x => exact ⟨x, rfl⟩
      simp only [sortLessAux, hd, hd0]
      have hlen1 : (normAt order colI d0).length = order.length := normAt_length order colI d0
      have hi1 : i < (normAt order colI d0).length := by rw [hlen1]; exact hi
      obtain ⟨di, hdi⟩ : ∃ di, (normAt order colI d0).get? i = some di := by
        cases ho : (normAt order colI d0).get? i with
        | none => exact absurd (List.get?_eq_none.mp ho) (by omega)
        | some x => exact ⟨x, rfl⟩
      have ih :=
        sortLessAux_equal rows defs i j rest (colI + 1) (normAt order colI d0)
          hi1
          (by rw [hlen1]; simp only [List.length_cons] at hlen; omega)
          (fun c' hc' => hcols c' (List.mem_cons_of_mem _ hc'))
      by_cases hts : d.typ = TypStr
      · rw [if_pos hts, hdi]
        dsimp only
        by_cases hasc : di = "asc"
        · rw [if_pos hasc, rowValStrAt_eq, rowValStrAt_eq, hvi, hvj,
              Option.map_some', Option.map_some']
          dsimp only
          rw [← hstr, strLt_irrefl]
          simpa using ih
        · by_cases hdesc : di = "desc"
          · rw [if_neg hasc, if_pos hdesc, rowValStrAt_eq, rowValStrAt_eq, hvi, hvj,
                Option.map_some', Option.map_some']
            dsimp only
            rw [← hstr, strLt_irrefl]
            simpa using ih
          · rw [if_neg hasc, if_neg hdesc]
            exact ih
      · by_cases htf : d.typ = TypFloat ∨ d.typ = TypInt
        · rw [if_neg hts, if_pos htf, hdi]
          dsimp only
          obtain ⟨q, hq⟩ := Option.isSome_iff_exists.mp (hfs htf)
          by_cases hasc : di = "asc"
          · rw [if_pos hasc, rowValFloatAt_eq, rowValFloatAt_eq, hvi, hvj]
            simp only [Option.some_bind]
            rw [← hfl, hq]
            dsimp only
            rw [if_neg (lt_irrefl q), if_neg (lt_irrefl q)]
            exact ih
          · by_cases hdesc : di = "desc"
            · rw [if_neg hasc, if_pos hdesc, rowValFloatAt_eq, rowValFloatAt_eq, hvi, hvj]
              simp only [Option.some_bind]
              rw [← hfl, hq]
              dsimp only
              rw [if_neg (lt_irrefl q), if_neg (lt_irrefl q)]
              exact ih
            · rw [if_neg hasc, if_neg hdesc]
              exact ih
        · rw [if_neg hts, if_neg htf]
          exact ih

/-- C2 amended: the `opSort` comparator never strictly orders two rows
that agree (as Values) on every configured sort column, so both relative
orders of such rows satisfy the `sort.Slice` postcondition — and since
`sort.Slice` does not guarantee stability, their relative order after
sorting is unspecified. -/
theorem C2_equal_rows_incomparable (rows : List Row) (defs : ValueDefs)
    (cols order : List String) (i j : Nat)
    (hi : i < order.length)
    (hlen : cols.length ≤ order.length)
    (hcols : ∀ c ∈ cols, ∃ d vi vj,
        defs.find c = some d ∧
        (rows.get? i).bind (fun r => r.lookup c) = some vi ∧
        (rows.get? j).bind (fun r => r.lookup c) = some vj ∧
        vi.valStr = vj.valStr ∧ vi.valFloat = vj.valFloat ∧
        ((d.typ = TypFloat ∨ d.typ = TypInt) → vi.valFloat.isSome)) :
    sortLessB rows defs cols order i j = some false := by
  obtain ⟨ord, h⟩ :=
    sortLessAux_equal rows defs i j cols 0 order hi (by omega) hcols
  unfold sortLessB sortLessGo
  rw [h]
  rfl

theorem C2_witness :
    sortLessB [rAC2, rBC2] defsC7 ["a", "b"] ["asc", "asc"] 0 1 = some false :=
  C2_equal_rows_incomparable [rAC2, rBC2] defsC7 ["a", "b"] ["asc", "asc"] 0 1
    (by decide) (by decide)
    (by
      intro c hc
      simp only [List.mem_cons, List.not_mem_nil, or_false] at hc
      rcases hc with rfl | rfl
      · exact ⟨dAC7, strValOf dAC7 "x", strValOf dAC7 "x", rfl, rfl, rfl, rfl, rfl,
          by intro hcon; rcases hcon with h | h <;> simp [dAC7, TypStr, TypFloat, TypInt] at h⟩
      · exact ⟨dBC7, strValOf dBC7 "y", strValOf dBC7 "y", rfl, rfl, rfl, rfl, rfl,
          by intro hcon; rcases hcon with h | h <;> simp [dBC7, TypStr, TypFloat, TypInt] at h⟩)

theorem C3_witness :
    vInt3C3.valInt.isSome ∧
    vInt3C3.valBool = some (decide (vInt3C3.valInt.getD 0 ≤ 0)) ∧
      (intDefC3.typ = TypInt → vInt3C3.valFloat = some ((vInt3C3.valInt.getD 0 : Int) : Rat)) :=
  C3_numeric_bool_projection intDefC3 "3" vInt3C3 (Or.inl rfl) rfl

theorem NewValue_plain (mc : String) (s : String) (hts : trimSpace s = s) :
    NewValue (md5ColDefOf mc) s = .ok ⟨none, none, none, md5ColDefOf mc, s⟩ := by
  by_cases hs : s = ""
  · subst hs; rfl
  · unfold NewValue ColDef.parseValStr
    simp only [md5ColDefOf, hts]
    rw [if_neg hs]
    simp

theorem md5CellStr_trim (md5sum : List Nat → List Nat) (fs : String → FileRes)
    (s : String) : trimSpace (md5CellStr md5sum fs s) = md5CellStr md5sum fs s := by
  unfold md5CellStr
  cases fs s with
  | missing => rfl
  | unreadable => rfl
  | content bs =>
      dsimp only
      exact trimSpace_eq_self _
        (fun c hc => hexLower_not_ws c (hexEncode_chars (md5sum bs) c hc))

theorem md5CellStr_chars (md5sum : List Nat → List Nat) (fs : String → FileRes)
    (s : String) (ch : Char) (hch : ch ∈ (md5CellStr md5sum fs s).data) :
    ch.isDigit ∨ ('a' ≤ ch ∧ ch ≤ 'f') := by
  unfold md5CellStr at hch
  cases hfs : fs s with
  | missing => rw [hfs] at hch; exact absurd hch (List.not_mem_nil ch)
  | unreadable => rw [hfs] at hch; exact absurd hch (List.not_mem_nil ch)
  | content bs => rw [hfs] at hch; exact hexEncode_chars (md5sum bs) ch hch

/-- C4: `filesMd5` never fails on account of the file system: for every
row the hash column receives the empty string when the file named by the
filename column is missing or unreadable, and the lowercase hex digest of
the file's bytes when it is readable; the whole batch succeeds, each row
mutated in place, the returned output aliasing the mutated input. -/
theorem C4_filesMd5 (md5sum : List Nat → List Nat) (fs : String → FileRes)
    (rows : List Row) (defs : ValueDefs) (args : OFuncArgs)
    (fc mc : String) (ocols : List String) (t : Int) (hdrDefs : List ColDef)
    (h1 : argString args "filenameCol" = .ok fc)
    (h2 : argString args "md5Col" = .ok mc)
    (h3 : argSliceString args "outCols" = .ok ocols)
    (h4 : argInt args "threads" = .ok t)
    (h5 : findOutDefs defs ocols = .ok hdrDefs)
    (h6 : ∀ r ∈ rows, (r.lookup fc).isSome) :
    opMd5File md5sum fs rows defs args =
      .ok { newSource := rows.map (fun r =>
              r.set mc ⟨none, none, none, md5ColDefOf mc,
                        md5CellStr md5sum fs (((r.lookup fc).map Value.valStr).getD "")⟩),
            out := .aliased (headerToDefs (mkHeader (hdrDefs ++ [md5ColDefOf mc]))) } ∧
    (∀ r ∈ rows, ∀ ch ∈ (md5CellStr md5sum fs (((r.lookup fc).map Value.valStr).getD "")).data,
        ch.isDigit ∨ ('a' ≤ ch ∧ ch ≤ 'f')) := by
  constructor
  · unfold opMd5File
    rw [h1]; dsimp only
    rw [h2]; dsimp only
    rw [h3]; dsimp only
    rw [h4]; dsimp only
    rw [h5]; dsimp only
    rw [mapM_ok_map _
        (fun r => r.set mc ⟨none, none, none, md5ColDefOf mc,
                  md5CellStr md5sum fs (((r.lookup fc).map Value.valStr).getD "")⟩)
        rows ?_]
    · intro r hr
      obtain ⟨v, hv⟩ := Option.isSome_iff_exists.mp (h6 r hr)
      rw [hv]
      dsimp only
      rw [NewValue_plain mc _ (md5CellStr_trim md5sum fs v.valStr)]
      dsimp only
      rw [hv]
      dsimp only [Option.map_some', Option.getD_some]
  · intro r hr ch hch
    exact md5CellStr_chars md5sum fs _ ch hch

theorem C4_witness :
    opMd5File md5C4 fsC4 [rAC4, rBC4] defsC4 argsC4 =
      .ok { newSource := [rAC4, rBC4].map (fun r =>
              r.set "h" ⟨none, none, none, md5ColDefOf "h",
                        md5CellStr md5C4 fsC4 (((r.lookup "fn").map Value.valStr).getD "")⟩),
            out := .aliased (headerToDefs (mkHeader ([dFnC4] ++ [md5ColDefOf "h"]))) } :=
  (C4_filesMd5 md5C4 fsC4 [rAC4, rBC4] defsC4 argsC4 "fn" "h" ["fn"] 1 [dFnC4]
    rfl rfl rfl rfl rfl (by decide)).1

theorem findOutDefs_find {defs : ValueDefs} {c : String} {b : ColDef}
    (h : (match defs.find c with
          | none => Except.error ("column definition not found: " ++ c)
          | some d => Except.ok d) = Except.ok b) :
    defs.find c = some b := by
  cases hf : defs.find c with
  | none => rw [hf] at h; cases h
  | some d => rw [hf] at h; cases h; rfl

/-- C5 amended: per output column `mergeDupes` selects the first group
member's value when merging is off, else the first non-empty value
scanning the group in order with fallback to the last member
(`mergeSelect`); the selected value is re-run through `NewValue`, so the
emitted cell equals the selected member's Value exactly when every
member value is stable under re-construction (hypothesis `h6`). -/
theorem C5_mergeDupes_selection
    (rows : List Row) (defs : ValueDefs) (args : OFuncArgs)
    (cols ocols : List String) (mv : Bool)
    (m : List (String × List Row)) (hdrDefs : List ColDef)
    (h1 : argSliceString args "indexCols" = .ok cols)
    (h2 : argSliceString args "outCols" = .ok ocols)
    (h3 : argBool args "mergeValues" = .ok mv)
    (h4 : buildGroups cols rows = some m)
    (h5 : findOutDefs defs ocols = .ok hdrDefs)
    (h6 : ∀ r ∈ rows, ∀ c ∈ ocols, ∃ d v, defs.find c = some d ∧ r.lookup c = some v ∧
        NewValue d v.valStr = .ok v)
    (h7 : ∀ c ∈ ocols, ∀ d, defs.find c = some d → d.name = c) :
    opMergeDupes rows defs args =
      .ok { newSource := rows,
            out := .fresh (m.map (fun g => mergeRowExpected defs ocols mv g.2))
                          (headerToDefs (mkHeader hdrDefs)) } ∧
    ∀ g ∈ m, ∀ c ∈ ocols,
      (mergeRowExpected defs ocols mv g.2).lookup c = mergeSelect mv c g.2 := by
  have h5p := mapM_ok_get _ ocols hdrDefs h5
  have hcolfacts : ∀ g ∈ m, ∀ c ∈ ocols,
      ∃ d v r_, defs.find c = some d ∧ r_ ∈ g.2 ∧ r_.lookup c = some v ∧
        mergeSelect mv c g.2 = some v ∧ pickVal mv c g.2 = .ok v.valStr ∧
        NewValue d v.valStr = .ok v := by
    intro g hg c hc
    obtain ⟨hne, hsub⟩ := buildGroups_sound cols rows m h4 g hg
    have hallsome : ∀ r ∈ g.2, (r.lookup c).isSome := by
      intro r hr
      obtain ⟨d, v, _, hlk, _⟩ := h6 r (hsub r hr) c hc
      rw [hlk]; rfl
    obtain ⟨v, r_, hmem, hlk, hsel, hpick⟩ := pickVal_mergeSelect mv c g.2 hne hallsome
    obtain ⟨d, v', hd, hlk', hnv⟩ := h6 r_ (hsub r_ hmem) c hc
    rw [hlk] at hlk'
    cases hlk'
    exact ⟨d, v, r_, hd, hmem, hlk, hsel, hpick, hnv⟩
  have hgroup : ∀ g ∈ m,
      (do
        let rec_ ← ocols.mapM (fun c => pickVal mv c g.2)
        NewRow (mkHeader hdrDefs) rec_) = .ok (mergeRowExpected defs ocols mv g.2) := by
    intro g hg
    have hmapM : ocols.mapM (fun c => pickVal mv c g.2)
        = .ok (ocols.map (fun c => ((mergeSelect mv c g.2).getD junkValue).valStr)) := by
      apply mapM_ok_map
      intro c hc
      obtain ⟨d, v, r_, hd, hmem, hlk, hsel, hpick, hnv⟩ := hcolfacts g hg c hc
      rw [hpick, hsel]
      rfl
    rw [hmapM]
    show NewRow (mkHeader hdrDefs)
        (ocols.map (fun c => ((mergeSelect mv c g.2).getD junkValue).valStr)) = _
    have hpairs :
        (ocols.map (fun c =>
            ((defs.find c).getD junkDef, (mergeSelect mv c g.2).getD junkValue))).map
          (fun p => p.2.valStr)
        = ocols.map (fun c => ((mergeSelect mv c g.2).getD junkValue).valStr) := by
      rw [List.map_map]
      rfl
    rw [← hpairs]
    unfold NewRow mergeRowExpected rowOfPairs
    apply NewRowGo_pairs
    intro k p hp
    rw [List.get?_map] at hp
    cases hoc : ocols.get? k with
    | none => rw [hoc] at hp; cases hp
    | some c =>
        rw [hoc] at hp
        simp only [Option.map_some', Option.some.injEq] at hp
        have hc : c ∈ ocols := List.get?_mem hoc
        obtain ⟨d, v, r_, hd, hmem, hlk, hsel, hpick, hnv⟩ := hcolfacts g hg c hc
        subst hp
        constructor
        · rw [Nat.zero_add, mkHeader_find]
          obtain ⟨b, hb, hfb⟩ := h5p.2 k c hoc
          have hbd : defs.find c = some b := findOutDefs_find hfb
          rw [hb]
          rw [hbd] at hd
          cases hd
          rw [hbd]
          rfl
        · dsimp only
          rw [hd, hsel]
          exact hnv
  refine ⟨?_, ?_⟩
  · unfold opMergeDupes
    rw [h1]; dsimp only
    rw [h2]; dsimp only
    rw [h3]; dsimp only
    rw [h4]; dsimp only
    rw [h5]; dsimp only
    rw [mapM_ok_map _ (fun g => mergeRowExpected defs ocols mv g.2) m hgroup]
  · intro g hg c hc
    obtain ⟨d, v, r_, hd, hmem, hlk, hsel, hpick, hnv⟩ := hcolfacts g hg c hc
    obtain ⟨hne, hsub⟩ := buildGroups_sound cols rows m h4 g hg
    rw [hsel]
    unfold mergeRowExpected
    apply rowOfPairs_lookup
    · refine ⟨((defs.find c).getD junkDef, (mergeSelect mv c g.2).getD junkValue),
        List.mem_map_of_mem _ hc, ?_⟩
      dsimp only
      rw [hd]
      exact h7 c hc d hd
    · intro p hp hpname
      obtain ⟨c', hc', rfl⟩ := List.mem_map.mp hp
      dsimp only at hpname ⊢
      obtain ⟨d', v', r2, hd', _, _, _, _, _⟩ := hcolfacts g hg c' hc'
      rw [hd'] at hpname
      have hcc : c' = c := by
        rw [← h7 c' hc' d' hd']
        exact hpname
      subst hcc
      rw [hsel]
      rfl

theorem C5_witness :
    opMergeDupes [rEmptyC5, rVC5] defsYC5 argsTC5 =
      .ok { newSource := [rEmptyC5, rVC5],
            out := .fresh ([("", [rEmptyC5, rVC5])].map
                (fun g => mergeRowExpected defsYC5 ["x"] true g.2))
              (headerToDefs (mkHeader [dYC5])) } :=
  (C5_mergeDupes_selection [rEmptyC5, rVC5] defsYC5 argsTC5 [] ["x"] true
    [("", [rEmptyC5, rVC5])] [dYC5] rfl rfl rfl rfl rfl
    (by
      intro r hr c hc
      simp only [List.mem_cons, List.not_mem_nil, or_false] at hr hc
      subst hc
      rcases hr with rfl | rfl
      · exact ⟨dYC5, strValOf dYC5 "", rfl, rfl, rfl⟩
      · exact ⟨dYC5, strValOf dYC5 "v", rfl, rfl, rfl⟩)
    (by
      intro c hc d hd
      simp only [List.mem_cons, List.not_mem_nil, or_false] at hc
      subst hc
      have hd' : some dYC5 = some d := hd
      cases hd'
      rfl)).1

/-- C6 counterexample: on a string column with the whitespace-padded
default `"d "`, the engine itself builds the value `"d "` for an empty
cell, yet `dupesCount` with threshold 0 emits `"d"` for the one-member
group: the first member's value is re-run through `NewRow`/`NewValue`
(inside `dupesCountRow`), which trims it, so the emitted output column
is NOT the group's first member's value. -/
theorem C6_counterexample :
    NewValue dXC5 "" = .ok vPadC5 ∧
    opDupesCount [rowPadC5] defsC5 argsPadC6 =
      .ok { newSource := [rowPadC5],
            out := .fresh [[("x", vTrimC5), ("cnt", cntOneC6)]]
              [("x", dXC5), ("cnt", ⟨"cnt", TypInt, "", false, true⟩)] } ∧
    cntOneC6.valInt = some 1 ∧
    vTrimC5.valStr ≠ vPadC5.valStr := by
  refine ⟨rfl, ?_, rfl, by decide⟩
  have hito : itoa 1 = "1" := by
    have hd : Nat.digits 10 1 = [1] := by
      rw [Nat.digits_def' (by norm_num : (1 : Nat) < 10) (by norm_num : 0 < 1)]
      simp
    unfold itoa
    rw [if_neg (by decide : ¬ (1 = 0)), hd]
    rfl
  have hrow : dupesCountRow (mkHeader ([dXC5] ++ [⟨"cnt", TypInt, "", false, true⟩]))
        ["x"] [rowPadC5]
      = .ok [("x", vTrimC5), ("cnt", cntOneC6)] := by
    show NewRow (mkHeader ([dXC5] ++ [⟨"cnt", TypInt, "", false, true⟩]))
        (["d "] ++ [itoa 1]) = _
    rw [hito]
    rfl
  have hmap : ([("d ", [rowPadC5])] : List (String × List Row)).mapM
      (fun g => dupesCountRow (mkHeader ([dXC5] ++ [⟨"cnt", TypInt, "", false, true⟩]))
        ["x"] g.2)
      = .ok [[("x", vTrimC5), ("cnt", cntOneC6)]] := by
    rw [mapM_ok_map _ (fun _ => [("x", vTrimC5), ("cnt", cntOneC6)]) _
      (fun g hg => by
        simp only [List.mem_cons, List.not_mem_nil, or_false] at hg
        subst hg
        exact hrow)]
    rfl
  unfold opDupesCount
  rw [show argsPadC6.find "indexCols" = some (OpArgVal.strList ["x"]) from rfl]
  dsimp only
  rw [show argsPadC6.find "outCols" = some (OpArgVal.strList ["x"]) from rfl]
  dsimp only
  rw [show argsPadC6.find "countCol" = some (OpArgVal.str "cnt") from rfl]
  dsimp only
  rw [show argsPadC6.find "gt" = some (OpArgVal.str "0") from rfl]
  dsimp only
  rw [show goAtoi "0" = some (0 : Int) from rfl]
  dsimp only
  rw [show buildGroups ["x"] [rowPadC5] = some [("d ", [rowPadC5])] from rfl]
  dsimp only
  rw [show findOutDefs defsC5 ["x"] = Except.ok [dXC5] from rfl]
  dsimp only
  rw [show ([("d ", [rowPadC5])] : List (String × List Row)).filter
      (fun g => decide ((0 : Int) < (g.2.length : Int))) = [("d ", [rowPadC5])] from rfl]
  rw [hmap]
  rfl

/-- C6 (amended): `dupesCount` groups rows by the concatenation of the
string forms of the index columns, and exactly the groups whose size
strictly exceeds `gt` emit one row holding the first member's
output-column values plus a fresh int column holding the group size;
groups of size at most `gt` contribute nothing (the filter in the
output equality).  The emitted values pass through `NewValue`
re-construction, so they equal the first member's values exactly under
the stability hypothesis `h8` (true of all values except those born
from whitespace-padded defaults, see the counterexample). -/
theorem C6_dupesCount
    (rows : List Row) (defs : ValueDefs) (args : OFuncArgs)
    (cols ocols : List String) (cc gts : String) (gt : Int)
    (m : List (String × List Row)) (hdrDefs : List ColDef)
    (h1 : args.find "indexCols" = some (.strList cols))
    (h2 : args.find "outCols" = some (.strList ocols))
    (h3 : args.find "countCol" = some (.str cc))
    (h4 : args.find "gt" = some (.str gts))
    (h5 : goAtoi gts = some gt)
    (h6 : buildGroups cols rows = some m)
    (h7 : findOutDefs defs ocols = .ok hdrDefs)
    (h8 : ∀ r ∈ rows, ∀ c ∈ ocols, ∃ d v, defs.find c = some d ∧ r.lookup c = some v ∧
        NewValue d v.valStr = .ok v)
    (h9 : ∀ c ∈ ocols, ∀ d, defs.find c = some d → d.name = c)
    (h10 : ∀ c ∈ ocols, c ≠ cc) :
    opDupesCount rows defs args =
      .ok { newSource := rows,
            out := .fresh
              ((m.filter (fun g => gt < (g.2.length : Int))).map
                (fun g => dupesRowExpected defs ocols cc g.2))
              (headerToDefs (mkHeader (hdrDefs ++ [⟨cc, TypInt, "", false, true⟩]))) } ∧
    ∀ g ∈ m, gt < (g.2.length : Int) →
      (dupesRowExpected defs ocols cc g.2).lookup cc = some (countValue cc g.2.length) ∧
      ∀ c ∈ ocols, (dupesRowExpected defs ocols cc g.2).lookup c
          = g.2.head?.bind (fun r => r.lookup c) := by
  have h7p := mapM_ok_get _ ocols hdrDefs h7
  have hcolfacts : ∀ g ∈ m, ∀ c ∈ ocols, ∃ d v, defs.find c = some d ∧
      g.2.head?.bind (fun r => r.lookup c) = some v ∧ NewValue d v.valStr = .ok v := by
    intro g hg c hc
    obtain ⟨hne, hsub⟩ := buildGroups_sound cols rows m h6 g hg
    cases hg2 : g.2 with
    | nil => exact absurd hg2 hne
    | cons r0 grest =>
        obtain ⟨d, v, hd, hlk, hnv⟩ :=
          h8 r0 (hsub r0 (by rw [hg2]; exact List.mem_cons_self _ _)) c hc
        refine ⟨d, v, hd, ?_, hnv⟩
        simpa using hlk
  have hgrow : ∀ g ∈ m,
      dupesCountRow (mkHeader (hdrDefs ++ [⟨cc, TypInt, "", false, true⟩])) ocols g.2
        = .ok (dupesRowExpected defs ocols cc g.2) := by
    intro g hg
    obtain ⟨hne, _⟩ := buildGroups_sound cols rows m h6 g hg
    have hfacts := hcolfacts g hg
    cases hg2 : g.2 with
    | nil => exact absurd hg2 hne
    | cons r0 grest =>
        rw [hg2] at hfacts
        unfold dupesCountRow
        dsimp only
        have hmapM : ocols.mapM (fun c =>
            match r0.lookup c with
            | none => Except.error "column not found in row"
            | some v => Except.ok v.valStr)
            = .ok (ocols.map (fun c =>
                (((r0 :: grest).head?.bind (fun r => r.lookup c)).getD junkValue).valStr)) := by
          apply mapM_ok_map
          intro c hc
          obtain ⟨d, v, hd, hlk, hnv⟩ := hfacts c hc
          have hlk0 : r0.lookup c = some v := by simpa using hlk
          rw [hlk0]
          dsimp only
          rw [show ((r0 :: grest).head?.bind (fun r => r.lookup c)) = some v from hlk]
          rfl
        rw [hmapM]
        dsimp only
        show NewRow (mkHeader (hdrDefs ++ [⟨cc, TypInt, "", false, true⟩]))
            ((ocols.map (fun c =>
                (((r0 :: grest).head?.bind (fun r => r.lookup c)).getD junkValue).valStr))
              ++ [itoa (r0 :: grest).length]) = _
        have hpairs :
            ((ocols.map (fun c =>
                ((defs.find c).getD junkDef,
                 ((r0 :: grest).head?.bind (fun r => r.lookup c)).getD junkValue)))
              ++ [((⟨cc, TypInt, "", false, true⟩ : ColDef), countValue cc (r0 :: grest).length)]).map
              (fun p => (p.2.valStr : String))
            = (ocols.map (fun c =>
                (((r0 :: grest).head?.bind (fun r => r.lookup c)).getD junkValue).valStr))
              ++ [itoa (r0 :: grest).length] := by
          rw [List.map_append, List.map_map]
          rfl
        rw [← hpairs]
        unfold NewRow dupesRowExpected rowOfPairs
        apply NewRowGo_pairs
        intro k p hp
        have hmlen : (ocols.map (fun c =>
            ((defs.find c).getD junkDef,
             ((r0 :: grest).head?.bind (fun r => r.lookup c)).getD junkValue))).length
            = ocols.length := List.length_map _ _
        by_cases hk : k < ocols.length
        · rw [List.get?_append (by rw [hmlen]; exact hk)] at hp
          rw [List.get?_map] at hp
          cases hoc : ocols.get? k with
          | none => rw [hoc] at hp; cases hp
          | some c =>
              rw [hoc] at hp
              simp only [Option.map_some', Option.some.injEq] at hp
              have hc : c ∈ ocols := List.get?_mem hoc
              obtain ⟨d, v, hd, hlk, hnv⟩ := hfacts c hc
              subst hp
              constructor
              · rw [Nat.zero_add, mkHeader_find,
                    List.get?_append (by rw [h7p.1]; exact hk)]
                obtain ⟨b, hb, hfb⟩ := h7p.2 k c hoc
                have hbd : defs.find c = some b := findOutDefs_find hfb
                rw [hb]
                dsimp only
                rw [hbd]
                rfl
              · dsimp only
                rw [hd, hlk]
                exact hnv
        · have hktot : k < ocols.length + 1 := by
            by_contra hge
            rw [List.get?_eq_none.mpr (by
              rw [List.length_append, hmlen]
              simpa using hge)] at hp
            cases hp
          have hkeq : k = ocols.length := by omega
          subst hkeq
          rw [show ocols.length
              = (ocols.map (fun c =>
                  ((defs.find c).getD junkDef,
                   ((r0 :: grest).head?.bind (fun r => r.lookup c)).getD junkValue))).length
              from hmlen.symm, List.get?_concat_length] at hp
          cases hp
          constructor
          · rw [Nat.zero_add, mkHeader_find,
                show ocols.length = hdrDefs.length from h7p.1.symm,
                List.get?_concat_length]
          · exact NewValue_count cc (r0 :: grest).length
  refine ⟨?_, ?_⟩
  · unfold opDupesCount
    rw [h1]; dsimp only
    rw [h2]; dsimp only
    rw [h3]; dsimp only
    rw [h4]; dsimp only
    rw [h5]; dsimp only
    rw [h6]; dsimp only
    rw [h7]; dsimp only
    rw [mapM_ok_map _ (fun g => dupesRowExpected defs ocols cc g.2)
        (m.filter (fun g => gt < (g.2.length : Int)))
        (fun g hg => hgrow g (List.mem_of_mem_filter hg))]
  · intro g hg _hgt
    refine ⟨?_, ?_⟩
    · unfold dupesRowExpected
      apply rowOfPairs_lookup
      · exact ⟨(⟨cc, TypInt, "", false, true⟩, countValue cc g.2.length),
          List.mem_append_right _ (List.mem_singleton.mpr rfl), rfl⟩
      · intro p hp hpname
        rcases List.mem_append.mp hp with hp' | hp'
        · obtain ⟨c', hc', rfl⟩ := List.mem_map.mp hp'
          obtain ⟨d', v', hd', _, _⟩ := hcolfacts g hg c' hc'
          dsimp only at hpname
          rw [hd'] at hpname
          exact absurd (by rw [← h9 c' hc' d' hd']; exact hpname) (h10 c' hc')
        · simp only [List.mem_singleton] at hp'
          subst hp'
          rfl
    · intro c hc
      obtain ⟨d, v, hd, hlk, hnv⟩ := hcolfacts g hg c hc
      rw [hlk]
      unfold dupesRowExpected
      apply rowOfPairs_lookup
      · refine ⟨((defs.find c).getD junkDef,
          (g.2.head?.bind (fun r => r.lookup c)).getD junkValue),
          List.mem_append_left _ (List.mem_map_of_mem _ hc), ?_⟩
        dsimp only
        rw [hd]
        exact h9 c hc d hd
      · intro p hp hpname
        rcases List.mem_append.mp hp with hp' | hp'
        · obtain ⟨c', hc', rfl⟩ := List.mem_map.mp hp'
          obtain ⟨d', v', hd', _, _⟩ := hcolfacts g hg c' hc'
          dsimp only at hpname ⊢
          rw [hd'] at hpname
          have hcc : c' = c := by
            rw [← h9 c' hc' d' hd']
            exact hpname
          subst hcc
          rw [hlk]
          rfl
        · simp only [List.mem_singleton] at hp'
          subst hp'
          exact absurd hpname.symm (h10 c hc)

/-- C6 witness: on the spec example (rows AAA, AAA, BBB grouped on
`code` with threshold 1) `dupesCount` succeeds, keeping the source rows,
and emits exactly one fresh row, for the AAA group, whose `cnt` column
holds the int-typed count 2. -/
theorem C6_witness :
    opDupesCount rowsC6 defsC6 argsC6 =
      .ok { newSource := rowsC6,
            out := .fresh
              [dupesRowExpected defsC6 ["code"] "cnt" grpAC6]
              (headerToDefs (mkHeader [dCodeC6, ⟨"cnt", TypInt, "", false, true⟩])) } ∧
    (dupesRowExpected defsC6 ["code"] "cnt" grpAC6).lookup "cnt"
      = some (countValue "cnt" 2) ∧
    (dupesRowExpected defsC6 ["code"] "cnt" grpAC6).lookup "code"
      = some (strValOf dCodeC6 "AAA") := by
  have h := C6_dupesCount rowsC6 defsC6 argsC6 ["code"] ["code"] "cnt" "1" 1
    mC6 [dCodeC6] rfl rfl rfl rfl rfl rfl rfl
    (by
      intro r hr c hc
      simp only [rowsC6, List.mem_cons, List.not_mem_nil, or_false] at hr hc
      subst hc
      rcases hr with rfl | rfl | rfl
      · exact ⟨dCodeC6, strValOf dCodeC6 "AAA", rfl, rfl, rfl⟩
      · exact ⟨dCodeC6, strValOf dCodeC6 "AAA", rfl, rfl, rfl⟩
      · exact ⟨dCodeC6, strValOf dCodeC6 "BBB", rfl, rfl, rfl⟩)
    (by
      intro c hc d hd
      simp only [List.mem_cons, List.not_mem_nil, or_false] at hc
      subst hc
      have hd' : some dCodeC6 = some d := hd
      cases hd'
      rfl)
    (by
      intro c hc
      simp only [List.mem_cons, List.not_mem_nil, or_false] at hc
      subst hc
      decide)
  have hA := h.2 ("AAA", grpAC6) (List.mem_cons_self _ _) (by decide)
  exact ⟨h.1, hA.1, by
    rw [hA.2 "code" (List.mem_cons_self _ _)]
    rfl⟩

theorem set_getD_self {α : Type} (d : α) : ∀ (l : List α) (k : Nat),
    l.set k (l.getD k d) = l
  | [], _ => rfl
  | _ :: _, 0 => rfl
  | a :: as, k + 1 => by
      show a :: as.set k ((a :: as).getD (k + 1) d) = a :: as
      rw [show (a :: as).getD (k + 1) d = as.getD k d from rfl, set_getD_self d as k]

theorem getD_eq_of_get? {α : Type} (l : List α) (n : Nat) (a d : α)
    (h : l.get? n = some a) : l.getD n d = a := by
  unfold List.getD
  rw [h]
  rfl

theorem opPrint_newSource (rows : List Row) (defs : ValueDefs) (args : OFuncArgs)
    (res : OpResult) (h : opPrint rows defs args = .ok res) : res.newSource = rows := by
  unfold opPrint at h
  cases hc : args.find "cols" with
  | none => rw [hc] at h; cases h
  | some a =>
      rw [hc] at h
      cases a with
      | str s => cases h
      | strList cols =>
          dsimp only at h
          cases hm : rows.mapM (fun r => cols.mapM (fun c =>
              match r.lookup c with
              | none => Except.error "column not found in row"
              | some v => Except.ok v.valStr)) with
          | error er => rw [hm] at h; cases h
          | ok w =>
              rw [hm] at h
              cases h
              rfl

theorem stepOp_entry (reg : Registry) (defs0 : ValueDefs) (st : PipeSt) (opi : Nat)
    (op : OperationConf) (st1 : PipeSt) (e : TraceEntry)
    (h : stepOp reg ⟨0, defs0⟩ st opi op = .ok (st1, e))
    (hdef : op.fromState = "") :
    e.cellIn = 0 ∧ e.defsIn = defs0 ∧ e.rowsIn = st.cells.getD 0 [] := by
  unfold stepOp at h
  cases hf : reg.find op.operation with
  | none => rw [hf] at h; cases h
  | some operation =>
      rw [hf] at h
      dsimp only at h
      cases hb : buildOpArgs operation.argDef op.args with
      | error er => rw [hb] at h; cases h
      | ok funcArgs =>
          rw [hb] at h
          dsimp only at h
          cases hs : (if op.fromState ≠ "" then
              StatesMap.find (if opi = 0 then st.states.set op.name ⟨0, defs0⟩ else st.states)
                op.fromState
            else some (⟨0, defs0⟩ : StateRef)) with
          | none => rw [hs] at h; cases h
          | some state =>
              have hsb : some (⟨0, defs0⟩ : StateRef) = some state := by
                rw [← hs, hdef]
                simp
              cases hsb
              rw [hs] at h
              dsimp only at h
              cases hx : operation.exec (st.cells.getD 0 []) defs0 funcArgs with
              | error er => rw [hx] at h; cases h
              | ok res =>
                  rw [hx] at h
                  dsimp only at h
                  cases h
                  exact ⟨rfl, rfl, rfl⟩

theorem stepOp_cell0 (reg : Registry) (base : StateRef) (st : PipeSt) (opi : Nat)
    (op : OperationConf) (st1 : PipeSt) (e : TraceEntry) (rows0 : List Row)
    (h : stepOp reg base st opi op = .ok (st1, e))
    (hnm : NonMutating reg op.operation)
    (h0 : st.cells.get? 0 = some rows0) :
    st1.cells.get? 0 = some rows0 := by
  have hlt : 0 < st.cells.length := by
    cases hc : st.cells with
    | nil => rw [hc] at h0; cases h0
    | cons x xs => exact Nat.succ_pos _
  unfold stepOp at h
  cases hf : reg.find op.operation with
  | none => rw [hf] at h; cases h
  | some operation =>
      rw [hf] at h
      dsimp only at h
      cases hb : buildOpArgs operation.argDef op.args with
      | error er => rw [hb] at h; cases h
      | ok funcArgs =>
          rw [hb] at h
          dsimp only at h
          cases hs : (if op.fromState ≠ "" then
              StatesMap.find (if opi = 0 then st.states.set op.name base else st.states)
                op.fromState
            else some base) with
          | none => rw [hs] at h; cases h
          | some state =>
              rw [hs] at h
              dsimp only at h
              cases hx : operation.exec (st.cells.getD state.cell []) state.defs funcArgs with
              | error er => rw [hx] at h; cases h
              | ok res =>
                  rw [hx] at h
                  dsimp only at h
                  rw [hnm operation _ state.defs funcArgs res hf hx,
                      set_getD_self [] st.cells state.cell] at h
                  cases hk : op.keepState with
                  | false =>
                      rw [hk, if_neg (by decide : ¬ (false = true))] at h
                      dsimp only at h
                      cases h
                      exact h0
                  | true =>
                      rw [hk, if_pos rfl] at h
                      cases ho : res.out with
                      | fresh r d =>
                          rw [ho] at h
                          dsimp only at h
                          cases h
                          show (st.cells ++ [r]).get? 0 = some rows0
                          rw [List.get?_append hlt]
                          exact h0
                      | aliased d =>
                          rw [ho] at h
                          dsimp only at h
                          cases h
                          exact h0

theorem runPipelineAux_cell0 (reg : Registry) (base : StateRef) (rows0 : List Row)
    (ops : List OperationConf) :
    ∀ (st : PipeSt) (opi : Nat) (stF : PipeSt) (tr : List TraceEntry),
    runPipelineAux reg base st opi ops = .ok (stF, tr) →
    (∀ op ∈ ops, NonMutating reg op.operation) →
    st.cells.get? 0 = some rows0 →
    stF.cells.get? 0 = some rows0 := by
  induction ops with
  | nil =>
      intro st opi stF tr h hnm h0
      cases h
      exact h0
  | cons op0 rest ih =>
      intro st opi stF tr h hnm h0
      rw [runPipelineAux] at h
      cases hstep : stepOp reg base st opi op0 with
      | error er => rw [hstep] at h; cases h
      | ok pr =>
          obtain ⟨st1, e0⟩ := pr
          rw [hstep] at h
          dsimp only at h
          cases hrest : runPipelineAux reg base st1 (opi + 1) rest with
          | error er => rw [hrest] at h; cases h
          | ok pr2 =>
              obtain ⟨stF2, tr2⟩ := pr2
              rw [hrest] at h
              dsimp only at h
              cases h
              exact ih st1 (opi + 1) stF tr2 hrest
                (fun op hop => hnm op (List.mem_cons_of_mem _ hop))
                (stepOp_cell0 reg base st opi op0 st1 e0 rows0 hstep
                  (hnm op0 (List.mem_cons_self _ _)) h0)

theorem runPipelineAux_base_entries (reg : Registry) (defs0 : ValueDefs)
    (rows0 : List Row) (ops : List OperationConf) :
    ∀ (st : PipeSt) (opi : Nat) (stF : PipeSt) (tr : List TraceEntry),
    runPipelineAux reg ⟨0, defs0⟩ st opi ops = .ok (stF, tr) →
    ∀ i op e, ops.get? i = some op → tr.get? i = some e → op.fromState = "" →
      e.cellIn = 0 ∧ e.defsIn = defs0 ∧
      (st.cells.get? 0 = some rows0 →
        (∀ j opj, j < i → ops.get? j = some opj → NonMutating reg opj.operation) →
        e.rowsIn = rows0) := by
  induction ops with
  | nil =>
      intro st opi stF tr h i op e hop htr hdef
      cases hop
  | cons op0 rest ih =>
      intro st opi stF tr h i op e hop htr hdef
      rw [runPipelineAux] at h
      cases hstep : stepOp reg ⟨0, defs0⟩ st opi op0 with
      | error er => rw [hstep] at h; cases h
      | ok pr =>
          obtain ⟨st1, e0⟩ := pr
          rw [hstep] at h
          dsimp only at h
          cases hrest : runPipelineAux reg ⟨0, defs0⟩ st1 (opi + 1) rest with
          | error er => rw [hrest] at h; cases h
          | ok pr2 =>
              obtain ⟨stF2, tr2⟩ := pr2
              rw [hrest] at h
              dsimp only at h
              cases h
              cases i with
              | zero =>
                  have hop0 : some op0 = some op := hop
                  cases hop0
                  have htr0 : some e0 = some e := htr
                  cases htr0
                  obtain ⟨hc, hd, hr⟩ :=
                    stepOp_entry reg defs0 st opi op0 st1 e hstep hdef
                  exact ⟨hc, hd, fun h0 _ => by
                    rw [hr]
                    exact getD_eq_of_get? st.cells 0 rows0 [] h0⟩
              | succ j =>
                  have hop1 : rest.get? j = some op := hop
                  have htr1 : tr2.get? j = some e := htr
                  have hres := ih st1 (opi + 1) stF tr2 hrest j op e hop1 htr1 hdef
                  refine ⟨hres.1, hres.2.1, fun h0 hprior => ?_⟩
                  have h01 : st1.cells.get? 0 = some rows0 :=
                    stepOp_cell0 reg ⟨0, defs0⟩ st opi op0 st1 e0 rows0 hstep
                      (hprior 0 op0 (Nat.succ_pos j) rfl) h0
                  exact hres.2.2 h01
                    (fun j1 opj hj1 hg =>
                      hprior (j1 + 1) opj (Nat.succ_lt_succ hj1) hg)

/-- C1 (amended): in every successful pipeline run, every invocation
that does not name a `fromState` is handed the BASE state: cell 0 (the
row-build slice) and the row-build column definitions — never a retained
operation output state.  Its rows equal the unmodified row-build output
whenever every earlier operation is non-mutating; the in-place mutators
(`filesMd5`, `sort`) break that unmodified-ness, see the
counterexample. -/
theorem C1_default_state_is_base
    (reg : Registry) (rows0 : List Row) (defs0 : ValueDefs)
    (ops : List OperationConf) (st : PipeSt) (tr : List TraceEntry)
    (i : Nat) (op : OperationConf) (e : TraceEntry)
    (hrun : runPipeline reg rows0 defs0 ops = .ok (st, tr))
    (hop : ops.get? i = some op)
    (htr : tr.get? i = some e)
    (hdef : op.fromState = "") :
    e.cellIn = 0 ∧ e.defsIn = defs0 ∧
    ((∀ j opj, j < i → ops.get? j = some opj → NonMutating reg opj.operation) →
      e.rowsIn = rows0) := by
  have h := runPipelineAux_base_entries reg defs0 rows0 ops ⟨[rows0], []⟩ 0 st tr
    hrun i op e hop htr hdef
  exact ⟨h.1, h.2.1, fun hj => h.2.2 rfl hj⟩

/-- C1 witness: in the one-operation pipeline `print` (no `fromState`),
the invocation is handed cell 0, the base column definitions and exactly
the row-build rows. -/
theorem C1_witness :
    runPipeline regP [row0P] defs0P [opPrintConfP] = .ok (stPW, [ePW]) ∧
    opPrintConfP.fromState = "" ∧
    ePW.cellIn = 0 ∧ ePW.defsIn = defs0P ∧ ePW.rowsIn = [row0P] := by
  have h := C1_default_state_is_base regP [row0P] defs0P [opPrintConfP] stPW [ePW]
    0 opPrintConfP ePW rfl rfl rfl rfl
  exact ⟨rfl, rfl, h.1, h.2.1,
    h.2.2 (fun j opj hj _ => absurd hj (Nat.not_lt_zero j))⟩

/-- C10: on success ReadCsv returns the final contents of the base
slice (cell 0, the slice built by the row-build pass) — never the output
row set of a pipeline operation; when every operation in the pipeline is
non-mutating, that is exactly the row-build output, no matter which
operations were appended. -/
theorem C10_readCsv_returns_base
    (reg : Registry) (rows0 : List Row) (defs0 : ValueDefs)
    (ops : List OperationConf) (st : PipeSt) (tr : List TraceEntry)
    (hrun : runPipeline reg rows0 defs0 ops = .ok (st, tr)) :
    readCsvPipeline reg rows0 defs0 ops = .ok (st.cells.getD 0 []) ∧
    ((∀ op ∈ ops, NonMutating reg op.operation) →
      readCsvPipeline reg rows0 defs0 ops = .ok rows0) := by
  have hbase : readCsvPipeline reg rows0 defs0 ops = .ok (st.cells.getD 0 []) := by
    unfold readCsvPipeline
    rw [show runPipeline reg rows0 defs0 ops = Except.ok (st, tr) from hrun]
  refine ⟨hbase, fun hnm => ?_⟩
  have h0 : st.cells.get? 0 = some rows0 :=
    runPipelineAux_cell0 reg ⟨0, defs0⟩ rows0 ops ⟨[rows0], []⟩ 0 st tr hrun hnm rfl
  rw [hbase, getD_eq_of_get? st.cells 0 rows0 [] h0]

/-- C10 witness: appending the non-mutating `print` operation leaves the
returned row slice exactly the row-build output. -/
theorem C10_witness :
    readCsvPipeline regP [row0P] defs0P [opPrintConfP] = .ok [row0P] := by
  have h := C10_readCsv_returns_base regP [row0P] defs0P [opPrintConfP] stPW [ePW] rfl
  refine h.2 ?_
  intro op hop
  simp only [List.mem_cons, List.not_mem_nil, or_false] at hop
  subst hop
  intro mop rows defs args res hfind hexec
  have hm : some (⟨[("cols", ArgKind.slice)], fun r d a => opPrint r d a⟩ : MOperation)
      = some mop := hfind
  cases hm
  exact opPrint_newSource rows defs args res hexec

end CsvChef
